import Mathlib

/-!
Verification of the navigation core of the koolo bot repository.

The Go sources are shallowly embedded:

* `CollisionType`, the per-tile classification (values follow the
  `iota` order of the source constants);
* namespace `GridV1` embeds the grid-builder variant that has the
  `DiagonalTile` type (source file with `markDiagonalTiles`);
* namespace `GridV2` embeds the second grid-builder variant (the one whose
  `isBlockingTile` is a `switch` and whose enum stops at `Thickened`);
* namespace `Overlay` embeds the debug overlay `/data` payload collection;
* namespace `Entrance` embeds the mouse entrance-interaction loop;
* namespace `Route` embeds the weighted area-graph search of
  `internal/action/move.go`.

Go machine integers are modelled as `Int` (no overflow is reachable in the
embedded code paths), Go `float64` cost/scale constants as `ℚ` (all values
involved are small decimal literals, exactly representable), Go slices as
`List`, and Go maps as association lists with explicit lookup functions.
In-place slice mutation is modelled by threading the updated matrix through
folds in the source's iteration order.
-/

/-- Tile classification, in the `iota` order of the source:
NonWalkable, Walkable, LowPriority, Monster, Object, TeleportOver,
Thickened, DiagonalTile.  The second builder variant's enum stops at
`Thickened`; its functions simply never see `diagonalTile`. -/
inductive CollisionType where
  | nonWalkable
  | walkable
  | lowPriority
  | monster
  | object
  | teleportOver
  | thickened
  | diagonalTile
deriving DecidableEq, Repr

/-- Numeric value of a collision type (the Go `iota` value), used where the
source converts the enum to `int`. -/
def CollisionType.code : CollisionType → Nat
  | .nonWalkable => 0
  | .walkable => 1
  | .lowPriority => 2
  | .monster => 3
  | .object => 4
  | .teleportOver => 5
  | .thickened => 6
  | .diagonalTile => 7

/-- World/grid position, a pair of integer coordinates. -/
structure Position where
  x : Int
  y : Int
deriving DecidableEq, Repr

/-- A raw collision matrix, indexed as `grid[y][x]` like the Go
`[][]CollisionType`. -/
abbrev TileMatrix := List (List CollisionType)

/-- The integers `a, a+1, …, b` (empty when `b < a`); models a Go
`for i := a; i <= b; i++` loop domain. -/
def intRange (a b : Int) : List Int :=
  (List.range (b + 1 - a).toNat).map (fun i => a + Int.ofNat i)

/-- Read `grid[y][x]` with the bounds checks the Go code performs;
`none` when the position is outside the matrix. -/
def cellAt (g : TileMatrix) (x y : Int) : Option CollisionType :=
  if y < 0 ∨ x < 0 then none
  else (g.getD y.toNat [])[x.toNat]?

/-- Length of row `y` (0 when `y` is out of range), as `len(grid[y])`. -/
def rowLen (g : TileMatrix) (y : Int) : Int :=
  if y < 0 then 0 else ((g.getD y.toNat []).length : Int)

/-- In-place write `grid[y][x] = c`, guarded by the source's bounds
checks; returns the matrix unchanged when out of bounds. -/
def setCell (g : TileMatrix) (x y : Int) (c : CollisionType) : TileMatrix :=
  if y < 0 ∨ (g.length : Int) ≤ y then g
  else if x < 0 ∨ ((g.getD y.toNat []).length : Int) ≤ x then g
  else g.set y.toNat ((g.getD y.toNat []).set x.toNat c)

/-- All `(y, x)` index pairs of the matrix in the row-major order of the
source's nested `for y … for x …` loops. -/
def gridIndices (g : TileMatrix) : List (Int × Int) :=
  (List.range g.length).flatMap (fun y =>
    (List.range (g.getD y []).length).map (fun x => ((y : Int), (x : Int))))

/-- The four orthogonal deltas `{1,0},{-1,0},{0,1},{0,-1}` (as `(dx, dy)`). -/
def orthoDeltas : List (Int × Int) := [(1, 0), (-1, 0), (0, 1), (0, -1)]

/-- The 8 neighbor deltas of `hasWalkableNeighbor`, in its loop order
(`dx` outer from -1 to 1, `dy` inner, skipping `(0,0)`). -/
def neighborDeltas : List (Int × Int) :=
  (intRange (-1) 1).flatMap (fun dx =>
    (intRange (-1) 1).filterMap (fun dy =>
      if dx = 0 ∧ dy = 0 then none else some (dx, dy)))

/-- The `drillExit` 5×5 box deltas: `dx, dy ∈ [-2,2]` skipping the four
2×2 far-corner blocks and the center, in the source's loop order. -/
def drillBoxDeltas : List (Int × Int) :=
  (intRange (-2) 2).flatMap (fun dx =>
    (intRange (-2) 2).filterMap (fun dy =>
      if ((dx < -1 ∨ 1 < dx) ∧ (dy < -1 ∨ 1 < dy)) ∨ (dx = 0 ∧ dy = 0) then none
      else some (dx, dy)))

/-- The 5×5 halo offsets `(i, j)` with `i, j ∈ [-2,2]`, skipping `(0,0)`,
in the loop order of the low-priority pass (`i` outer, `j` inner). -/
def haloOffsets : List (Int × Int) :=
  (intRange (-2) 2).flatMap (fun i =>
    (intRange (-2) 2).filterMap (fun j =>
      if i = 0 ∧ j = 0 then none else some (i, j)))

/-- An adjacent level entry (`data.Level`): the target area, its world
position and whether it is a physical entrance. -/
structure Level where
  area : Nat
  position : Position
  isEntrance : Bool
deriving DecidableEq, Repr

/-- The published `Grid` struct shared by both builder variants. -/
structure Grid where
  offsetX : Int
  offsetY : Int
  width : Int
  height : Int
  collisionGrid : TileMatrix
deriving DecidableEq, Repr

/-- `Grid.RelativePosition`: subtract the grid origin. -/
def Grid.relativePosition (g : Grid) (p : Position) : Position :=
  ⟨p.x - g.offsetX, p.y - g.offsetY⟩

namespace GridV1

/-- Variant 1 `isBlockingTile`: NonWalkable, Object and Monster always
block; TeleportOver blocks when the avatar cannot teleport; and the final
`return tile == CollisionTypeThickened` makes Thickened block
unconditionally. -/
def isBlockingTile (tile : CollisionType) (canTeleport : Bool) : Bool :=
  if tile = .nonWalkable ∨ tile = .object ∨ tile = .monster then true
  else if ¬canTeleport ∧ tile = .teleportOver then true
  else tile = .thickened

/-- Variant 1 `baseWalkable`: Walkable or LowPriority. -/
def baseWalkable (ct : CollisionType) : Bool :=
  ct = .walkable ∨ ct = .lowPriority

/-- Variant 1 `isWalkableType`: Walkable, LowPriority or DiagonalTile. -/
def isWalkableType (ct : CollisionType) : Bool :=
  ct = .walkable ∨ ct = .lowPriority ∨ ct = .diagonalTile

/-- The inline first pass of variant 1's `NewGrid`: for every blocking
tile, demote every Walkable tile in the surrounding 5×5 halo to
LowPriority.  The Go loop mutates the matrix while scanning it in
row-major order; the fold threads the updated matrix the same way.
(The Go bounds check uses `len(rawCollisionGrid[y])`, the scanned row's
length; on the rectangular matrices the game provides this equals the
target row's length, and `cellAt` performs the actual read.) -/
def lowPriorityPass (g0 : TileMatrix) (canTeleport : Bool) : TileMatrix :=
  (gridIndices g0).foldl (fun g yx =>
    let y := yx.1
    let x := yx.2
    if isBlockingTile ((cellAt g x y).getD .nonWalkable) canTeleport then
      haloOffsets.foldl (fun g d =>
        let ny := y + d.1
        let nx := x + d.2
        if ny < 0 ∨ (g.length : Int) ≤ ny ∨ nx < 0 ∨ rowLen g y ≤ nx then g
        else if cellAt g nx ny = some CollisionType.walkable then
          setCell g nx ny .lowPriority
        else g) g
    else g) g0

/-- Variant 1 `thickenCollisions`: mark (in a separate buffer) every
Walkable/LowPriority orthogonal neighbor of a blocking tile, then convert
every marked position to Thickened.  The buffer is modelled as the list of
marked `(x, y)` positions. -/
def thickenCollisions (g : TileMatrix) (canTeleport : Bool) : TileMatrix :=
  let buffer := (gridIndices g).foldl (fun buf yx =>
    let y := yx.1
    let x := yx.2
    if isBlockingTile ((cellAt g x y).getD .nonWalkable) canTeleport then
      orthoDeltas.foldl (fun buf d =>
        let ny := y + d.2
        let nx := x + d.1
        match cellAt g nx ny with
        | some c =>
          if c = CollisionType.walkable ∨ c = CollisionType.lowPriority then
            (nx, ny) :: buf
          else buf
        | none => buf) buf
    else buf) ([] : List (Int × Int))
  (gridIndices g).foldl (fun g yx =>
    if (yx.2, yx.1) ∈ buffer then setCell g yx.2 yx.1 .thickened else g) g

/-- Variant 1 `markDiagonalTiles`: scan every 2×2 block; when one diagonal
pair is base-walkable and the other pair is Thickened, mark the Thickened
pair (in a separate buffer), then convert every marked position to
DiagonalTile. -/
def markDiagonalTiles (g : TileMatrix) : TileMatrix :=
  if g.length = 0 then g
  else
    let marks := (intRange 0 ((g.length : Int) - 2)).foldl (fun marks y =>
      let w : Int := min (rowLen g y) (rowLen g (y + 1))
      (intRange 0 (w - 2)).foldl (fun marks x =>
        let a := (cellAt g x y).getD .nonWalkable
        let b := (cellAt g (x + 1) y).getD .nonWalkable
        let c := (cellAt g x (y + 1)).getD .nonWalkable
        let d := (cellAt g (x + 1) (y + 1)).getD .nonWalkable
        let marks :=
          if baseWalkable a ∧ baseWalkable d ∧
              b = CollisionType.thickened ∧ c = CollisionType.thickened then
            (x + 1, y) :: (x, y + 1) :: marks
          else marks
        if baseWalkable b ∧ baseWalkable c ∧
            a = CollisionType.thickened ∧ d = CollisionType.thickened then
          (x, y) :: (x + 1, y + 1) :: marks
        else marks) marks) ([] : List (Int × Int))
    (gridIndices g).foldl (fun g yx =>
      if (yx.2, yx.1) ∈ marks then setCell g yx.2 yx.1 .diagonalTile else g) g

/-- `setWalkable`: bounds-checked write of Walkable. -/
def setWalkable (g : TileMatrix) (x y : Int) : TileMatrix :=
  setCell g x y .walkable

/-- `hasWalkableNeighbor`: some 8-neighbor inside the matrix has a
walkable type. -/
def hasWalkableNeighbor (g : TileMatrix) (x y : Int) : Bool :=
  neighborDeltas.any (fun d =>
    match cellAt g (x + d.1) (y + d.2) with
    | some c => isWalkableType c
    | none => false)

/-- `drillExit`: force the exit tile Walkable; if it still has no walkable
neighbor, force its four orthogonal neighbors Walkable and demote every
Thickened tile of the surrounding 5×5 box (corners excluded) back to
Walkable. -/
def drillExit (g0 : TileMatrix) (x y : Int) : TileMatrix :=
  let g := setWalkable g0 x y
  if hasWalkableNeighbor g x y then g
  else
    let g := orthoDeltas.foldl (fun g d => setWalkable g (x + d.1) (y + d.2)) g
    drillBoxDeltas.foldl (fun g d =>
      let nx := x + d.1
      let ny := y + d.2
      if cellAt g nx ny = some CollisionType.thickened then setWalkable g nx ny
      else g) g

/-- Loop body of `drillExits`: skip the exit when its grid-relative
position falls outside the matrix, otherwise drill it. -/
def drillExitStep (offsetX offsetY : Int) (g : TileMatrix) (l : Level) :
    TileMatrix :=
  let relativeX := l.position.x - offsetX
  let relativeY := l.position.y - offsetY
  if relativeY < 0 ∨ (g.length : Int) ≤ relativeY then g
  else if relativeX < 0 ∨ rowLen g relativeY ≤ relativeX then g
  else drillExit g relativeX relativeY

/-- `drillExits`: drill every exit whose grid-relative position is inside
the matrix. -/
def drillExits (g : TileMatrix) (offsetX offsetY : Int) (exits : List Level) :
    TileMatrix :=
  exits.foldl (drillExitStep offsetX offsetY) g

/-- Scan step of `isGap`: walk the index window keeping the current run of
consecutive blocking tiles, stopping as soon as the run reaches 3
(the Go loop condition `spaces < gapSize`); out-of-bounds indices are
skipped without resetting the run. -/
def gapScan (blockedAt : Int → Option Bool) : List Int → Nat → Nat
  | [], spaces => spaces
  | i :: rest, spaces =>
    if 3 ≤ spaces then spaces
    else
      match blockedAt i with
      | none => gapScan blockedAt rest spaces
      | some true => gapScan blockedAt rest (spaces + 1)
      | some false => gapScan blockedAt rest 0

/-- Variant 1 `isGap`: a blocking tile such that the maximal run of
consecutive blocking tiles within ±(gapSize+1) stays below 3 on its row,
or (when the row already has a long run) on its column.  (The Go column
scan indexes `grid[j][x]` after checking only `j`; `cellAt` supplies the
read, which agrees on the rectangular matrices the game provides.) -/
def isGap (g : TileMatrix) (x y : Int) (canTeleport : Bool) : Bool :=
  if ¬ isBlockingTile ((cellAt g x y).getD .nonWalkable) canTeleport then false
  else
    let rowSpaces := gapScan
      (fun i => (cellAt g i y).map (fun c => isBlockingTile c canTeleport))
      (intRange (x - 4) (x + 4)) 0
    if rowSpaces < 3 then true
    else
      let colSpaces := gapScan
        (fun j => (cellAt g x j).map (fun c => isBlockingTile c canTeleport))
        (intRange (y - 4) (y + 4)) 0
      colSpaces < 3

/-- Variant 1 `fillGaps`: convert every gap tile to Thickened, scanning in
row-major order with mutations visible to later scans. -/
def fillGaps (g0 : TileMatrix) (canTeleport : Bool) : TileMatrix :=
  (gridIndices g0).foldl (fun g yx =>
    if isGap g yx.2 yx.1 canTeleport then setCell g yx.2 yx.1 .thickened else g) g0

/-- Variant 1 `NewGrid`: the Go function builds the struct around the raw
matrix and then runs, in order, the low-priority halo loop, `fillGaps`,
`thickenCollisions`, `markDiagonalTiles` and `drillExits`, each mutating
the matrix in place.  (`Width` reads `len(rawCollisionGrid[0])`.) -/
def newGrid (rawCollisionGrid : TileMatrix) (offsetX offsetY : Int)
    (canTeleport : Bool) (exits : List Level) : Grid :=
  let g1 := lowPriorityPass rawCollisionGrid canTeleport
  let g2 := fillGaps g1 canTeleport
  let g3 := thickenCollisions g2 canTeleport
  let g4 := markDiagonalTiles g3
  let g5 := drillExits g4 offsetX offsetY exits
  { offsetX := offsetX
    offsetY := offsetY
    width := ((rawCollisionGrid.headD []).length : Int)
    height := (rawCollisionGrid.length : Int)
    collisionGrid := g5 }

/-- Variant 1 `Grid.IsWalkable`. -/
def isWalkable (g : Grid) (p : Position) : Bool :=
  let p := g.relativePosition p
  if p.x < 0 ∨ g.width ≤ p.x ∨ p.y < 0 ∨ g.height ≤ p.y then false
  else isWalkableType ((g.collisionGrid.getD p.y.toNat []).getD p.x.toNat .nonWalkable)

end GridV1

namespace GridV2

/-- Variant 2 `isBlockingTile`: a `switch` where only NonWalkable,
TeleportOver and Thickened appear; Object and Monster fall into the
`default: return false` arm. -/
def isBlockingTile (tile : CollisionType) (canTeleport : Bool) : Bool :=
  match tile with
  | .nonWalkable => true
  | .teleportOver => !canTeleport
  | .thickened => !canTeleport
  | _ => false

/-- Variant 2 `isWalkableType`: Walkable or LowPriority (this variant has
no DiagonalTile). -/
def isWalkableType (ct : CollisionType) : Bool :=
  ct = .walkable ∨ ct = .lowPriority

/-- Variant 2 `Grid.IsWalkable` (same body as variant 1, with this
variant's `isWalkableType`). -/
def isWalkable (g : Grid) (p : Position) : Bool :=
  let p := g.relativePosition p
  if p.x < 0 ∨ g.width ≤ p.x ∨ p.y < 0 ∨ g.height ≤ p.y then false
  else isWalkableType ((g.collisionGrid.getD p.y.toNat []).getD p.x.toNat .nonWalkable)

end GridV2

/-- C9: when the grid-relative coordinates of the queried position fall
outside `[0, Width) × [0, Height)`, `Grid.IsWalkable` returns false in both
builder variants.  The statement holds for every cell matrix, so the result
never depends on (and the code never reads) the matrix contents. -/
theorem isWalkable_out_of_bounds (g : Grid) (p : Position)
    (h : p.x - g.offsetX < 0 ∨ g.width ≤ p.x - g.offsetX ∨
      p.y - g.offsetY < 0 ∨ g.height ≤ p.y - g.offsetY) :
    GridV1.isWalkable g p = false ∧ GridV2.isWalkable g p = false := by
  constructor
  · simp only [GridV1.isWalkable, Grid.relativePosition]
    exact if_pos h
  · simp only [GridV2.isWalkable, Grid.relativePosition]
    exact if_pos h

/-- C9 witness: a concrete grid and a position to its right. -/
theorem isWalkable_out_of_bounds_witness :
    GridV1.isWalkable ⟨0, 0, 1, 1, [[CollisionType.walkable]]⟩ ⟨5, 0⟩ = false ∧
      GridV2.isWalkable ⟨0, 0, 1, 1, [[CollisionType.walkable]]⟩ ⟨5, 0⟩ = false :=
  isWalkable_out_of_bounds ⟨0, 0, 1, 1, [[CollisionType.walkable]]⟩ ⟨5, 0⟩ (by decide)

set_option maxRecDepth 8000 in
/-- C8: running variant 1's gap fill with `canTeleport = false` on the
single row `[W W B W W W B W W]` turns exactly the tiles at x = 2 and x = 6
into Thickened and leaves the others unchanged. -/
theorem fillGaps_concrete_row :
    GridV1.fillGaps
        [[.walkable, .walkable, .nonWalkable, .walkable, .walkable, .walkable,
          .nonWalkable, .walkable, .walkable]] false =
      [[.walkable, .walkable, .thickened, .walkable, .walkable, .walkable,
        .thickened, .walkable, .walkable]] := rfl

/-- Pipeline in the order the specification's pipeline section claims
(modelled from the spec: dilation, then gap fill, then diagonal marking,
then exit drill, then the low-priority halo last), built from variant 1's
passes, for comparison against the source's `NewGrid`. -/
def claimedOrderPipeline (raw : TileMatrix) (offsetX offsetY : Int)
    (canTeleport : Bool) (exits : List Level) : TileMatrix :=
  let g1 := GridV1.thickenCollisions raw canTeleport
  let g2 := GridV1.fillGaps g1 canTeleport
  let g3 := GridV1.markDiagonalTiles g2
  let g4 := GridV1.drillExits g3 offsetX offsetY exits
  GridV1.lowPriorityPass g4 canTeleport

set_option maxRecDepth 8000 in
/-- C2, counterexample: on the row `[B W W W W]` the source's `NewGrid`
(halo first) and the claimed pass order (halo last) produce different
grids, so `NewGrid` does not apply the passes in the claimed order. -/
theorem newGrid_pass_order_counterexample :
    (GridV1.newGrid [[.nonWalkable, .walkable, .walkable, .walkable, .walkable]]
        0 0 false []).collisionGrid ≠
      claimedOrderPipeline [[.nonWalkable, .walkable, .walkable, .walkable, .walkable]]
        0 0 false [] := by
  intro h
  have h1 : cellAt (GridV1.newGrid [[.nonWalkable, .walkable, .walkable, .walkable,
      .walkable]] 0 0 false []).collisionGrid 3 0 = some CollisionType.walkable := rfl
  have h2 : cellAt (claimedOrderPipeline [[.nonWalkable, .walkable, .walkable,
      .walkable, .walkable]] 0 0 false []) 3 0 = some CollisionType.lowPriority := rfl
  rw [h] at h1
  rw [h1] at h2
  injection h2 with h3
  cases h3

/-- C2, amended: variant 1's `NewGrid` applies the low-priority halo
first, then gap fill, then dilation, then diagonal marking, and the exit
drill last. -/
theorem newGrid_pass_order (raw : TileMatrix) (offsetX offsetY : Int)
    (canTeleport : Bool) (exits : List Level) :
    (GridV1.newGrid raw offsetX offsetY canTeleport exits).collisionGrid =
      GridV1.drillExits
        (GridV1.markDiagonalTiles
          (GridV1.thickenCollisions
            (GridV1.fillGaps (GridV1.lowPriorityPass raw canTeleport) canTeleport)
            canTeleport))
        offsetX offsetY exits :=
  rfl

/-- C1, counterexample.  The claim requires `isBlocking(Thickened, canTeleport)`
to be `!canTeleport` (hence false when teleporting) and
`isBlocking(Object, *)` to be true always; variant 1 keeps Thickened
blocking even for a teleporter, and variant 2 does not block Object. -/
theorem isBlockingTile_claim_false :
    ¬ (GridV1.isBlockingTile CollisionType.thickened true = false ∧
       GridV2.isBlockingTile CollisionType.object true = true) := by
  decide

/-- C1, amended.  Exact classification of both `isBlockingTile` variants:
variant 1 blocks NonWalkable, Object, Monster always, TeleportOver iff not
teleporting, and Thickened always; variant 2 blocks NonWalkable always,
TeleportOver and Thickened iff not teleporting, and nothing else (Object and
Monster included). -/
theorem isBlockingTile_characterization :
    ∀ (tile : CollisionType) (canTeleport : Bool),
      (GridV1.isBlockingTile tile canTeleport =
        (tile = .nonWalkable ∨ tile = .object ∨ tile = .monster ∨
          (tile = .teleportOver ∧ canTeleport = false) ∨ tile = .thickened : Bool)) ∧
      (GridV2.isBlockingTile tile canTeleport =
        (tile = .nonWalkable ∨
          ((tile = .teleportOver ∨ tile = .thickened) ∧ canTeleport = false) : Bool)) := by
  intro tile canTeleport
  cases tile <;> cases canTeleport <;> decide

/-- Helper: a list lookup is defined exactly inside the bounds. -/
theorem getElem?_isSome_iff {α : Type} (l : List α) (i : Nat) :
    l[i]?.isSome = true ↔ i < l.length := by
  rw [Option.isSome_iff_exists]
  constructor
  · rintro ⟨a, ha⟩
    exact (List.getElem?_eq_some.mp ha).1
  · intro h
    exact ⟨l[i], List.getElem?_eq_getElem h⟩

/-- `cellAt` is defined exactly on the in-bounds positions used by the
source's explicit bounds checks. -/
theorem cellAt_isSome_iff (g : TileMatrix) (x y : Int) :
    (cellAt g x y).isSome = true ↔
      0 ≤ y ∧ y < (g.length : Int) ∧ 0 ≤ x ∧ x < rowLen g y := by
  unfold cellAt rowLen
  by_cases hy : y < 0
  · rw [if_pos (Or.inl hy), if_pos hy]
    simp only [Option.isSome_none, Bool.false_eq_true, false_iff]
    omega
  · by_cases hx : x < 0
    · rw [if_pos (Or.inr hx), if_neg hy]
      simp only [Option.isSome_none, Bool.false_eq_true, false_iff]
      omega
    · rw [if_neg (by omega), if_neg hy, getElem?_isSome_iff]
      by_cases hyl : y.toNat < g.length
      · constructor
        · intro h
          exact ⟨by omega, by omega, by omega, by omega⟩
        · intro h
          omega
      · rw [List.getD_eq_default _ _ (by omega)]
        simp only [List.length_nil]
        omega

/-- Writing through `setCell` changes exactly the target cell (when it is
in bounds) and nothing else. -/
theorem cellAt_setCell (g : TileMatrix) (x y : Int) (c : CollisionType) (a b : Int) :
    cellAt (setCell g x y c) a b =
      if a = x ∧ b = y ∧ (cellAt g x y).isSome = true then some c
      else cellAt g a b := by
  unfold setCell
  by_cases h1 : y < 0 ∨ (g.length : Int) ≤ y
  · rw [if_pos h1, if_neg]
    rintro ⟨-, -, hsome⟩
    rw [cellAt_isSome_iff] at hsome
    omega
  · rw [if_neg h1]
    by_cases h2 : x < 0 ∨ ((g.getD y.toNat []).length : Int) ≤ x
    · rw [if_pos h2, if_neg]
      rintro ⟨-, -, hsome⟩
      rw [cellAt_isSome_iff] at hsome
      unfold rowLen at hsome
      rw [if_neg (by omega)] at hsome
      omega
    · rw [if_neg h2]
      have hsome : (cellAt g x y).isSome = true := by
        rw [cellAt_isSome_iff]
        unfold rowLen
        rw [if_neg (by omega)]
        omega
      simp only [hsome, and_true]
      unfold cellAt
      by_cases hab : b < 0 ∨ a < 0
      · rw [if_pos hab, if_neg (by rintro ⟨h3, h4⟩; omega), if_pos hab]
      · rw [if_neg hab, if_neg hab]
        have hrow : (g.set y.toNat ((g.getD y.toNat []).set x.toNat c)).getD b.toNat []
            = if y.toNat = b.toNat then (g.getD y.toNat []).set x.toNat c
              else g.getD b.toNat [] := by
          rw [List.getD_eq_getElem?_getD, List.getElem?_set]
          by_cases hby : y.toNat = b.toNat
          · rw [if_pos hby, if_pos (by omega), if_pos hby]
            rfl
          · rw [if_neg hby, if_neg hby, ← List.getD_eq_getElem?_getD]
        rw [hrow]
        by_cases hby : y.toNat = b.toNat
        · rw [if_pos hby, List.getElem?_set]
          by_cases hax : x.toNat = a.toNat
          · rw [if_pos hax, if_pos (by omega), if_pos (by constructor <;> omega)]
          · rw [if_neg hax, if_neg (by rintro ⟨h3, h4⟩; omega)]
            rw [hby]
        · rw [if_neg hby, if_neg (by rintro ⟨h3, h4⟩; omega)]

/-- The relation between a matrix and any matrix obtained from it by
writes of the Walkable value alone: every cell is unchanged or became
Walkable, and no cell appears or disappears. -/
def OnlyWalkableWrites (g g' : TileMatrix) : Prop :=
  ∀ a b : Int, cellAt g' a b = cellAt g a b ∨
    ((cellAt g a b).isSome = true ∧ cellAt g' a b = some CollisionType.walkable)

theorem OnlyWalkableWrites.refl (g : TileMatrix) : OnlyWalkableWrites g g :=
  fun _ _ => Or.inl rfl

theorem OnlyWalkableWrites.trans {g1 g2 g3 : TileMatrix}
    (h12 : OnlyWalkableWrites g1 g2) (h23 : OnlyWalkableWrites g2 g3) :
    OnlyWalkableWrites g1 g3 := by
  intro a b
  rcases h12 a b with h | ⟨hs, hw⟩
  · rcases h23 a b with h' | ⟨hs', hw'⟩
    · exact Or.inl (h'.trans h)
    · exact Or.inr ⟨by rw [← h]; exact hs', hw'⟩
  · rcases h23 a b with h' | ⟨hs', hw'⟩
    · exact Or.inr ⟨hs, h'.trans hw⟩
    · exact Or.inr ⟨hs, hw'⟩

theorem OnlyWalkableWrites.isSome_eq {g g' : TileMatrix}
    (h : OnlyWalkableWrites g g') (a b : Int) :
    (cellAt g' a b).isSome = (cellAt g a b).isSome := by
  rcases h a b with h' | ⟨hs, hw⟩
  · rw [h']
  · rw [hw, hs]
    rfl

theorem OnlyWalkableWrites.walkable_preserved {g g' : TileMatrix}
    (h : OnlyWalkableWrites g g') {a b : Int}
    (hc : cellAt g a b = some CollisionType.walkable) :
    cellAt g' a b = some CollisionType.walkable := by
  rcases h a b with h' | ⟨-, h'⟩
  · rw [h', hc]
  · exact h'

theorem OnlyWalkableWrites.setWalkable (g : TileMatrix) (x y : Int) :
    OnlyWalkableWrites g (GridV1.setWalkable g x y) := by
  intro a b
  rw [GridV1.setWalkable, cellAt_setCell]
  split
  · next h => exact Or.inr ⟨by rw [h.1, h.2.1]; exact h.2.2, rfl⟩
  · exact Or.inl rfl

theorem onlyWalkableWrites_foldl {α : Type} :
    ∀ (l : List α) (step : TileMatrix → α → TileMatrix),
      (∀ g a, OnlyWalkableWrites g (step g a)) →
      ∀ g : TileMatrix, OnlyWalkableWrites g (l.foldl step g)
  | [], _, _, g => OnlyWalkableWrites.refl g
  | a :: l, step, hstep, g =>
    (hstep g a).trans (onlyWalkableWrites_foldl l step hstep (step g a))

set_option maxHeartbeats 1000000 in
/-- `drillExit` writes only Walkable values. -/
theorem drillExit_onlyWalkableWrites (g : TileMatrix) (x y : Int) :
    OnlyWalkableWrites g (GridV1.drillExit g x y) := by
  simp only [GridV1.drillExit]
  have h1 := OnlyWalkableWrites.setWalkable g x y
  split
  · exact h1
  · have h2 := onlyWalkableWrites_foldl orthoDeltas
      (fun g d => GridV1.setWalkable g (x + d.1) (y + d.2))
      (fun g d => OnlyWalkableWrites.setWalkable g (x + d.1) (y + d.2))
      (GridV1.setWalkable g x y)
    have h3 := onlyWalkableWrites_foldl drillBoxDeltas
      (fun g d =>
        if cellAt g (x + d.1) (y + d.2) = some CollisionType.thickened then
          GridV1.setWalkable g (x + d.1) (y + d.2)
        else g)
      (fun g d => by
        dsimp only
        split
        · exact OnlyWalkableWrites.setWalkable g (x + d.1) (y + d.2)
        · exact OnlyWalkableWrites.refl g)
      (orthoDeltas.foldl (fun g d => GridV1.setWalkable g (x + d.1) (y + d.2))
        (GridV1.setWalkable g x y))
    exact (h1.trans h2).trans h3

/-- The loop body of `drillExits` writes only Walkable values. -/
theorem drillExitStep_onlyWalkableWrites (offsetX offsetY : Int)
    (g : TileMatrix) (l : Level) :
    OnlyWalkableWrites g (GridV1.drillExitStep offsetX offsetY g l) := by
  simp only [GridV1.drillExitStep]
  split
  · exact OnlyWalkableWrites.refl g
  · split
    · exact OnlyWalkableWrites.refl g
    · exact drillExit_onlyWalkableWrites g _ _

/-- `drillExits` writes only Walkable values. -/
theorem drillExits_onlyWalkableWrites (g : TileMatrix) (offsetX offsetY : Int)
    (exits : List Level) :
    OnlyWalkableWrites g (GridV1.drillExits g offsetX offsetY exits) :=
  onlyWalkableWrites_foldl exits _
    (drillExitStep_onlyWalkableWrites offsetX offsetY) g

set_option maxHeartbeats 1000000 in
/-- A fold of `setWalkable` writes leaves every targeted in-bounds cell
Walkable. -/
theorem foldl_setWalkable_hits (x y : Int) :
    ∀ (ps : List (Int × Int)) (g : TileMatrix) (d : Int × Int), d ∈ ps →
      (cellAt g (x + d.1) (y + d.2)).isSome = true →
      cellAt (ps.foldl (fun g q => GridV1.setWalkable g (x + q.1) (y + q.2)) g)
          (x + d.1) (y + d.2) = some CollisionType.walkable
  | [], _, d, hd, _ => absurd hd (List.not_mem_nil d)
  | q :: ps, g, d, hd, hs => by
    simp only [List.foldl_cons]
    rcases List.mem_cons.mp hd with rfl | hmem
    · have hset : cellAt (GridV1.setWalkable g (x + d.1) (y + d.2)) (x + d.1) (y + d.2)
          = some CollisionType.walkable := by
        rw [GridV1.setWalkable, cellAt_setCell, if_pos ⟨rfl, rfl, hs⟩]
      exact (onlyWalkableWrites_foldl ps
        (fun g q => GridV1.setWalkable g (x + q.1) (y + q.2))
        (fun g q => OnlyWalkableWrites.setWalkable g (x + q.1) (y + q.2))
        (GridV1.setWalkable g (x + d.1) (y + d.2))).walkable_preserved hset
    · have hs' : (cellAt (GridV1.setWalkable g (x + q.1) (y + q.2))
          (x + d.1) (y + d.2)).isSome = true := by
        rw [(OnlyWalkableWrites.setWalkable g (x + q.1) (y + q.2)).isSome_eq]
        exact hs
      exact foldl_setWalkable_hits x y ps _ d hmem hs'

/-- A walkable-typed cell at a neighbor delta makes `hasWalkableNeighbor`
true. -/
theorem hasWalkableNeighbor_of_cell (g : TileMatrix) (x y : Int) (d : Int × Int)
    (hd : d ∈ neighborDeltas) {c : CollisionType}
    (hc : cellAt g (x + d.1) (y + d.2) = some c)
    (hw : GridV1.isWalkableType c = true) :
    GridV1.hasWalkableNeighbor g x y = true := by
  unfold GridV1.hasWalkableNeighbor
  rw [List.any_eq_true]
  refine ⟨d, hd, ?_⟩
  rw [hc]
  exact hw

/-- Walkable-typed cells survive walkable-only writes. -/
theorem OnlyWalkableWrites.walkableType_preserved {g g' : TileMatrix}
    (h : OnlyWalkableWrites g g') {a b : Int} {c : CollisionType}
    (hc : cellAt g a b = some c) (hw : GridV1.isWalkableType c = true) :
    ∃ c', cellAt g' a b = some c' ∧ GridV1.isWalkableType c' = true := by
  rcases h a b with h' | ⟨-, h'⟩
  · exact ⟨c, by rw [h', hc], hw⟩
  · exact ⟨CollisionType.walkable, h', by decide⟩

/-- `hasWalkableNeighbor` is monotone under walkable-only writes. -/
theorem hasWalkableNeighbor_mono {g g' : TileMatrix}
    (h : OnlyWalkableWrites g g') (x y : Int)
    (hw : GridV1.hasWalkableNeighbor g x y = true) :
    GridV1.hasWalkableNeighbor g' x y = true := by
  unfold GridV1.hasWalkableNeighbor at hw ⊢
  rw [List.any_eq_true] at hw ⊢
  obtain ⟨d, hd, hdw⟩ := hw
  refine ⟨d, hd, ?_⟩
  rcases hc : cellAt g (x + d.1) (y + d.2) with - | c
  · rw [hc] at hdw
    cases hdw
  · rw [hc] at hdw
    obtain ⟨c', hc', hw'⟩ := h.walkableType_preserved hc hdw
    rw [hc']
    exact hw'

/-- The four orthogonal deltas are among the eight neighbor deltas. -/
theorem orthoDeltas_subset_neighborDeltas :
    ∀ d ∈ orthoDeltas, d ∈ neighborDeltas := by
  decide

set_option maxHeartbeats 1000000 in
/-- After `drillExit` on an in-bounds position that has an in-bounds
orthogonal neighbor, the position is Walkable and has a walkable
neighbor. -/
theorem drillExit_spec (g : TileMatrix) (x y : Int)
    (hin : (cellAt g x y).isSome = true)
    (d : Int × Int) (hd : d ∈ orthoDeltas)
    (hnb : (cellAt g (x + d.1) (y + d.2)).isSome = true) :
    cellAt (GridV1.drillExit g x y) x y = some CollisionType.walkable ∧
      GridV1.hasWalkableNeighbor (GridV1.drillExit g x y) x y = true := by
  simp only [GridV1.drillExit]
  have hset : cellAt (GridV1.setWalkable g x y) x y = some CollisionType.walkable := by
    rw [GridV1.setWalkable, cellAt_setCell, if_pos ⟨rfl, rfl, hin⟩]
  split
  · next hwn => exact ⟨hset, hwn⟩
  · have hnb1 : (cellAt (GridV1.setWalkable g x y) (x + d.1) (y + d.2)).isSome
        = true := by
      rw [(OnlyWalkableWrites.setWalkable g x y).isSome_eq]
      exact hnb
    have hhits := foldl_setWalkable_hits x y orthoDeltas (GridV1.setWalkable g x y)
      d hd hnb1
    have hortho : OnlyWalkableWrites (GridV1.setWalkable g x y)
        (orthoDeltas.foldl (fun g d => GridV1.setWalkable g (x + d.1) (y + d.2))
          (GridV1.setWalkable g x y)) :=
      onlyWalkableWrites_foldl orthoDeltas
        (fun g d => GridV1.setWalkable g (x + d.1) (y + d.2))
        (fun g d => OnlyWalkableWrites.setWalkable g (x + d.1) (y + d.2))
        (GridV1.setWalkable g x y)
    have hbox : OnlyWalkableWrites
        (orthoDeltas.foldl (fun g d => GridV1.setWalkable g (x + d.1) (y + d.2))
          (GridV1.setWalkable g x y))
        (drillBoxDeltas.foldl (fun g d =>
          if cellAt g (x + d.1) (y + d.2) = some CollisionType.thickened then
            GridV1.setWalkable g (x + d.1) (y + d.2)
          else g)
          (orthoDeltas.foldl (fun g d => GridV1.setWalkable g (x + d.1) (y + d.2))
            (GridV1.setWalkable g x y))) := by
      refine onlyWalkableWrites_foldl drillBoxDeltas _ (fun g d => ?_) _
      dsimp only
      split
      · exact OnlyWalkableWrites.setWalkable g (x + d.1) (y + d.2)
      · exact OnlyWalkableWrites.refl g
    constructor
    · exact hbox.walkable_preserved (hortho.walkable_preserved hset)
    · exact hasWalkableNeighbor_of_cell _ x y d
        (orthoDeltas_subset_neighborDeltas d hd)
        (hbox.walkable_preserved hhits) (by decide)

/-- C6, amended: after `drillExits`, every exit of the input list whose
grid-relative position lies inside the matrix is classified Walkable; and
provided at least one of its four orthogonal neighbors also lies inside
the matrix, it has at least one walkable neighbor.  (`(cellAt …).isSome`
states exactly the in-bounds condition of the source's bounds checks.) -/
theorem drillExits_exit_walkable (offsetX offsetY : Int) (l : Level)
    (d : Int × Int) (hd : d ∈ orthoDeltas) :
    ∀ (exits : List Level) (g : TileMatrix), l ∈ exits →
      (cellAt g (l.position.x - offsetX) (l.position.y - offsetY)).isSome = true →
      (cellAt g (l.position.x - offsetX + d.1)
        (l.position.y - offsetY + d.2)).isSome = true →
      cellAt (GridV1.drillExits g offsetX offsetY exits)
          (l.position.x - offsetX) (l.position.y - offsetY)
          = some CollisionType.walkable ∧
        GridV1.hasWalkableNeighbor (GridV1.drillExits g offsetX offsetY exits)
          (l.position.x - offsetX) (l.position.y - offsetY) = true
  | [], _, hl, _, _ => absurd hl (List.not_mem_nil l)
  | e :: rest, g, hl, hin, hnb => by
    have hunfold : GridV1.drillExits g offsetX offsetY (e :: rest)
        = GridV1.drillExits (GridV1.drillExitStep offsetX offsetY g e)
          offsetX offsetY rest := rfl
    rw [hunfold]
    rcases List.mem_cons.mp hl with rfl | hmem
    · have hbounds := (cellAt_isSome_iff g (l.position.x - offsetX)
        (l.position.y - offsetY)).mp hin
      have hstep : GridV1.drillExitStep offsetX offsetY g l
          = GridV1.drillExit g (l.position.x - offsetX) (l.position.y - offsetY) := by
        simp only [GridV1.drillExitStep]
        rw [if_neg (by omega), if_neg (by omega)]
      rw [hstep]
      have hspec := drillExit_spec g (l.position.x - offsetX)
        (l.position.y - offsetY) hin d hd hnb
      have hOWW := drillExits_onlyWalkableWrites
        (GridV1.drillExit g (l.position.x - offsetX) (l.position.y - offsetY))
        offsetX offsetY rest
      exact ⟨hOWW.walkable_preserved hspec.1,
        hasWalkableNeighbor_mono hOWW _ _ hspec.2⟩
    · have hOWW := drillExitStep_onlyWalkableWrites offsetX offsetY g e
      exact drillExits_exit_walkable offsetX offsetY l d hd rest _ hmem
        (by rw [hOWW.isSome_eq]; exact hin)
        (by rw [hOWW.isSome_eq]; exact hnb)

/-- C6, counterexample: on a 1×1 grid the lone exit lies inside bounds and
is drilled Walkable, but the grid has no second cell, so the exit has no
walkable neighbor after the pass. -/
theorem drillExits_neighbor_counterexample :
    (cellAt ([[CollisionType.nonWalkable]] : TileMatrix) 0 0).isSome = true ∧
      cellAt (GridV1.drillExits [[CollisionType.nonWalkable]] 0 0
        [⟨0, ⟨0, 0⟩, false⟩]) 0 0 = some CollisionType.walkable ∧
      GridV1.hasWalkableNeighbor (GridV1.drillExits [[CollisionType.nonWalkable]] 0 0
        [⟨0, ⟨0, 0⟩, false⟩]) 0 0 = false := by
  decide

/-- C6 witness: drilling the corner exit of a fully blocked 2×2 grid. -/
theorem drillExits_exit_walkable_witness :
    cellAt (GridV1.drillExits
        [[CollisionType.nonWalkable, CollisionType.nonWalkable],
          [CollisionType.nonWalkable, CollisionType.nonWalkable]] 0 0
        [⟨0, ⟨0, 0⟩, false⟩]) (0 - 0) (0 - 0) = some CollisionType.walkable ∧
      GridV1.hasWalkableNeighbor (GridV1.drillExits
        [[CollisionType.nonWalkable, CollisionType.nonWalkable],
          [CollisionType.nonWalkable, CollisionType.nonWalkable]] 0 0
        [⟨0, ⟨0, 0⟩, false⟩]) (0 - 0) (0 - 0) = true :=
  drillExits_exit_walkable 0 0 ⟨0, ⟨0, 0⟩, false⟩ (1, 0) (by decide)
    [⟨0, ⟨0, 0⟩, false⟩]
    [[CollisionType.nonWalkable, CollisionType.nonWalkable],
      [CollisionType.nonWalkable, CollisionType.nonWalkable]]
    (by decide) (by decide) (by decide)

namespace Overlay

/-- `overlayScale = 2.5`. -/
def overlayScale : ℚ := 5 / 2

/-- `overlayRange = 120.0` (used only on integer differences). -/
def overlayRange : Int := 120

/-- An in-area object as the overlay reads it (`Name` formatted with
`%v`, plus the position). -/
structure OverlayObject where
  name : Nat
  position : Position
deriving DecidableEq, Repr

/-- A monster as returned by `Monsters.Enemies()`: its type (a string in
the game data) and position. -/
structure OverlayMonster where
  mtype : String
  position : Position
deriving DecidableEq, Repr

/-- The three elite monster-type strings checked for the larger dot. -/
def monsterTypeChampion : String := "Champion"

def monsterTypeUnique : String := "Unique"

def monsterTypeSuperUnique : String := "SuperUnique"

/-- The part of the game snapshot (`ctx.Data`) the overlay reads. -/
structure Snapshot where
  isIngame : Bool
  playerPosition : Position
  areaName : String
  objects : List OverlayObject
  monstersEnemies : List OverlayMonster
  grid : Option Grid
deriving Repr

/-- The overlay's context: the (possibly nil) snapshot and the path
finder's `LastPathDebug` result (`none` models a nil path finder or
`ok = false`). -/
structure OverlayCtx where
  data : Option Snapshot
  lastPath : Option (List Position)

/-- A JSON point of the payload; Go zero values (0, "") stand in for the
fields a producer does not set. -/
structure OverlayPoint where
  x : ℚ
  y : ℚ
  size : ℚ
  kind : String
deriving DecidableEq, Repr

/-- A JSON tile of the payload (`Type` is the collision type's int
value). -/
structure OverlayTile where
  x : ℚ
  y : ℚ
  tileType : Nat
deriving DecidableEq, Repr

/-- The `/data` JSON payload. -/
structure OverlayPayload where
  scale : ℚ
  tiles : List OverlayTile
  path : List OverlayPoint
  objects : List OverlayPoint
  monsters : List OverlayPoint
  meta : String
deriving DecidableEq, Repr

/-- `withinRange`: both player-relative offsets within ±120. -/
def withinRange (dx dy : Int) : Bool :=
  dx.natAbs ≤ 120 ∧ dy.natAbs ≤ 120

/-- The object loop of `collectData`: keep objects within range, append,
and break once 80 points are collected (Go appends first, then checks
`len(objects) >= 80`). -/
def collectObjects (player : Position) :
    List OverlayObject → List OverlayPoint → List OverlayPoint
  | [], acc => acc
  | obj :: rest, acc =>
    let dx := obj.position.x - player.x
    let dy := obj.position.y - player.y
    if ¬ withinRange dx dy then collectObjects player rest acc
    else
      let acc := acc ++ [⟨(dx : ℚ), (dy : ℚ), 2, toString obj.name⟩]
      if 80 ≤ acc.length then acc
      else collectObjects player rest acc

/-- The monster loop of `collectData`: like the object loop, with size
3.5 for champions/uniques/super-uniques and 2.5 otherwise. -/
def collectMonsters (player : Position) :
    List OverlayMonster → List OverlayPoint → List OverlayPoint
  | [], acc => acc
  | m :: rest, acc =>
    let dx := m.position.x - player.x
    let dy := m.position.y - player.y
    if ¬ withinRange dx dy then collectMonsters player rest acc
    else
      let size : ℚ :=
        if m.mtype = monsterTypeChampion ∨ m.mtype = monsterTypeUnique ∨
            m.mtype = monsterTypeSuperUnique then 7 / 2
        else 5 / 2
      let acc := acc ++ [⟨(dx : ℚ), (dy : ℚ), size, m.mtype⟩]
      if 80 ≤ acc.length then acc
      else collectMonsters player rest acc

/-- The `switch` of `collectTiles` lists every collision type except
Monster; the default arm skips the tile. -/
def overlayTileVisible : CollisionType → Bool
  | .walkable => true
  | .lowPriority => true
  | .nonWalkable => true
  | .teleportOver => true
  | .object => true
  | .thickened => true
  | .diagonalTile => true
  | .monster => false

/-- `collectTiles`: every visible grid cell inside the ±120 window around
the player, in player-relative coordinates.  The Go slice is created with
capacity 5000 but the loop never enforces a cap. -/
def collectTiles (grid : Option Grid) (player : Position) : List OverlayTile :=
  match grid with
  | none => []
  | some grid =>
    let rangeSize : Int := overlayRange
    let startX := max (player.x - rangeSize) grid.offsetX
    let endX := min (player.x + rangeSize) (grid.offsetX + grid.width - 1)
    let startY := max (player.y - rangeSize) grid.offsetY
    let endY := min (player.y + rangeSize) (grid.offsetY + grid.height - 1)
    (intRange startY endY).flatMap (fun worldY =>
      let row := grid.collisionGrid.getD (worldY - grid.offsetY).toNat []
      (intRange startX endX).filterMap (fun worldX =>
        let cell := row.getD (worldX - grid.offsetX).toNat CollisionType.nonWalkable
        if overlayTileVisible cell then
          some ⟨((worldX - player.x : Int) : ℚ), ((worldY - player.y : Int) : ℚ),
            cell.code⟩
        else none))

/-- `collectPath`: the last debug path, clipped to the ±120 window, in
player-relative coordinates. -/
def collectPath (lastPath : Option (List Position)) (player : Position) :
    List OverlayPoint :=
  match lastPath with
  | none => []
  | some path =>
    if path.length = 0 then []
    else
      path.filterMap (fun node =>
        let dx := node.x - player.x
        let dy := node.y - player.y
        if withinRange dx dy then some ⟨(dx : ℚ), (dy : ℚ), 0, ""⟩ else none)

/-- `collectData`: the `/data` payload.  A nil snapshot or a not-in-game
snapshot returns the waiting payload unchanged. -/
def collectData (ctx : OverlayCtx) : OverlayPayload :=
  let payload : OverlayPayload :=
    { scale := overlayScale, tiles := [], path := [], objects := [],
      monsters := [], meta := "Waiting for game state..." }
  match ctx.data with
  | none => payload
  | some d =>
    if ¬ d.isIngame then payload
    else
      let player := d.playerPosition
      let objects := collectObjects player d.objects []
      let monsters := collectMonsters player d.monstersEnemies []
      let tiles := collectTiles d.grid player
      { scale := overlayScale
        tiles := tiles
        path := collectPath ctx.lastPath player
        objects := objects
        monsters := monsters
        meta := d.areaName ++ " | tiles:" ++ toString tiles.length ++ " objects:"
          ++ toString objects.length ++ " monsters:" ++ toString monsters.length }

end Overlay


/-- Both early-return branches of `collectData` (nil snapshot, not
in-game) yield the untouched waiting payload. -/
theorem collectData_eq_waiting (data : Option Overlay.Snapshot)
    (lastPath : Option (List Position))
    (h : data = none ∨ ∃ d, data = some d ∧ d.isIngame = false) :
    Overlay.collectData ⟨data, lastPath⟩ =
      { scale := 5 / 2, tiles := [], path := [], objects := [], monsters := [],
        meta := "Waiting for game state..." } := by
  rcases h with rfl | ⟨d, rfl, hig⟩
  · rfl
  · unfold Overlay.collectData
    dsimp only
    rw [hig]
    rfl

/-- C10: with a nil snapshot, or one that reports the player as not
in-game, `collectData` returns the payload with scale 2.5, the
"Waiting for game state..." meta line and empty tiles, path, objects and
monsters. -/
theorem collectData_waiting (ctx : Overlay.OverlayCtx)
    (h : ctx.data = none ∨ ∃ d, ctx.data = some d ∧ d.isIngame = false) :
    Overlay.collectData ctx =
      { scale := 5 / 2, tiles := [], path := [], objects := [], monsters := [],
        meta := "Waiting for game state..." } := by
  rcases ctx with ⟨data, lastPath⟩
  exact collectData_eq_waiting data lastPath h

/-- C10 witness: the empty context. -/
theorem collectData_waiting_witness :
    Overlay.collectData ⟨none, none⟩ =
      { scale := 5 / 2, tiles := [], path := [], objects := [], monsters := [],
        meta := "Waiting for game state..." } :=
  collectData_waiting ⟨none, none⟩ (Or.inl rfl)

/-- Bounded-accumulator lemma for the object loop: starting below 80, the
loop never returns more than 80 points. -/
theorem collectObjects_length_le (player : Position) :
    ∀ (objs : List Overlay.OverlayObject) (acc : List Overlay.OverlayPoint),
      acc.length < 80 → (Overlay.collectObjects player objs acc).length ≤ 80
  | [], acc, h => by
    simp only [Overlay.collectObjects]
    omega
  | obj :: rest, acc, h => by
    simp only [Overlay.collectObjects]
    split
    · exact collectObjects_length_le player rest acc h
    · split
      · next h80 =>
        simp only [List.length_append, List.length_cons, List.length_nil]
        omega
      · next h80 =>
        refine collectObjects_length_le player rest _ ?_
        simp only [List.length_append, List.length_cons, List.length_nil] at h80 ⊢
        omega

/-- Bounded-accumulator lemma for the monster loop. -/
theorem collectMonsters_length_le (player : Position) :
    ∀ (ms : List Overlay.OverlayMonster) (acc : List Overlay.OverlayPoint),
      acc.length < 80 → (Overlay.collectMonsters player ms acc).length ≤ 80
  | [], acc, h => by
    simp only [Overlay.collectMonsters]
    omega
  | m :: rest, acc, h => by
    simp only [Overlay.collectMonsters]
    split
    · exact collectMonsters_length_le player rest acc h
    · split
      · split
        · next h80 =>
          simp only [List.length_append, List.length_cons, List.length_nil]
          omega
        · next h80 =>
          refine collectMonsters_length_le player rest _ ?_
          simp only [List.length_append, List.length_cons, List.length_nil] at h80 ⊢
          omega
      · split
        · next h80 =>
          simp only [List.length_append, List.length_cons, List.length_nil]
          omega
        · next h80 =>
          refine collectMonsters_length_le player rest _ ?_
          simp only [List.length_append, List.length_cons, List.length_nil] at h80 ⊢
          omega

/-- Length bound for `flatMap` when every block is bounded. -/
theorem length_flatMap_le {α β : Type} (l : List α) (f : α → List β) (n : Nat)
    (h : ∀ a ∈ l, (f a).length ≤ n) :
    (l.flatMap f).length ≤ l.length * n := by
  induction l with
  | nil => simp
  | cons a l ih =>
    simp only [List.flatMap_cons, List.length_append, List.length_cons]
    have h1 := h a (List.mem_cons_self a l)
    have h2 := ih (fun b hb => h b (List.mem_cons_of_mem a hb))
    rw [Nat.succ_mul]
    omega

/-- Number of entries of an integer range. -/
theorem intRange_length (a b : Int) : (intRange a b).length = (b + 1 - a).toNat := by
  unfold intRange
  rw [List.length_map, List.length_range]

/-- The tile window never exceeds 241×241 = 58081 tiles, whatever the
grid. -/
theorem collectTiles_length_le (grid : Option Grid) (player : Position) :
    (Overlay.collectTiles grid player).length ≤ 58081 := by
  rcases grid with - | grid
  · simp [Overlay.collectTiles]
  · simp only [Overlay.collectTiles]
    refine le_trans (length_flatMap_le _ _ 241 (fun worldY _ => ?_)) ?_
    · refine le_trans (List.length_filterMap_le _ _) ?_
      rw [intRange_length]
      have h1 : min (player.x + Overlay.overlayRange)
          (grid.offsetX + grid.width - 1) ≤ player.x + Overlay.overlayRange :=
        min_le_left _ _
      have h2 : player.x - Overlay.overlayRange ≤
          max (player.x - Overlay.overlayRange) grid.offsetX := le_max_left _ _
      have h120 : Overlay.overlayRange = 120 := rfl
      omega
    · have h1 : min (player.y + Overlay.overlayRange)
          (grid.offsetY + grid.height - 1) ≤ player.y + Overlay.overlayRange :=
        min_le_left _ _
      have h2 : player.y - Overlay.overlayRange ≤
          max (player.y - Overlay.overlayRange) grid.offsetY := le_max_left _ _
      have h120 : Overlay.overlayRange = 120 := rfl
      have hy : (intRange (max (player.y - Overlay.overlayRange) grid.offsetY)
          (min (player.y + Overlay.overlayRange)
            (grid.offsetY + grid.height - 1))).length ≤ 241 := by
        rw [intRange_length]
        omega
      calc _ ≤ 241 * 241 := Nat.mul_le_mul_right 241 hy
      _ = 58081 := rfl

/-- C4, amended: every payload holds at most 80 objects and at most 80
monsters (the collection loops break as soon as 80 are gathered), and its
tiles are bounded only by the ±120 window — at most 241×241 = 58081
tiles; the 5000 of the spec is merely the Go slice's initial capacity and
is not enforced. -/
theorem collectData_bounds (ctx : Overlay.OverlayCtx) :
    (Overlay.collectData ctx).objects.length ≤ 80 ∧
      (Overlay.collectData ctx).monsters.length ≤ 80 ∧
      (Overlay.collectData ctx).tiles.length ≤ 58081 := by
  rcases ctx with ⟨data, lastPath⟩
  rcases data with - | d
  · rw [collectData_eq_waiting none lastPath (Or.inl rfl)]
    exact ⟨by simp, by simp, by simp⟩
  · rcases hig : d.isIngame with - | -
    · rw [collectData_eq_waiting (some d) lastPath (Or.inr ⟨d, rfl, hig⟩)]
      exact ⟨by simp, by simp, by simp⟩
    · unfold Overlay.collectData
      dsimp only
      rw [hig]
      simp only [if_neg (by simp : ¬ (¬ true = true))]
      refine ⟨?_, ?_, ?_⟩
      · exact collectObjects_length_le d.playerPosition d.objects [] (by decide)
      · exact collectMonsters_length_le d.playerPosition d.monstersEnemies [] (by decide)
      · exact collectTiles_length_le d.grid d.playerPosition

/-- Membership in an integer range. -/
theorem mem_intRange {lo hi a : Int} : a ∈ intRange lo hi ↔ lo ≤ a ∧ a ≤ hi := by
  unfold intRange
  rw [List.mem_map]
  simp only [Int.ofNat_eq_coe]
  constructor
  · rintro ⟨i, hmem, rfl⟩
    rw [List.mem_range] at hmem
    omega
  · rintro ⟨h1, h2⟩
    refine ⟨(a - lo).toNat, ?_, by omega⟩
    rw [List.mem_range]
    omega

/-- `filterMap` keeps the length when the function never drops an
element. -/
theorem length_filterMap_of_isSome {α β : Type} (f : α → Option β) :
    ∀ l : List α, (∀ a ∈ l, (f a).isSome = true) →
      (l.filterMap f).length = l.length
  | [], _ => rfl
  | a :: l, h => by
    rcases hfa : f a with - | b
    · have hsome := h a (List.mem_cons_self a l)
      rw [hfa] at hsome
      cases hsome
    · rw [List.filterMap_cons, hfa]
      simp only [List.length_cons]
      rw [length_filterMap_of_isSome f l (fun x hx => h x (List.mem_cons_of_mem a hx))]

/-- Exact length of a `flatMap` with blocks of equal length. -/
theorem length_flatMap_eq {α β : Type} (l : List α) (f : α → List β) (n : Nat)
    (h : ∀ a ∈ l, (f a).length = n) :
    (l.flatMap f).length = l.length * n := by
  induction l with
  | nil => simp
  | cons a l ih =>
    simp only [List.flatMap_cons, List.length_append, List.length_cons]
    rw [h a (List.mem_cons_self a l),
      ih (fun b hb => h b (List.mem_cons_of_mem a hb)), Nat.succ_mul]
    omega

/-- `getD` of a replicated list inside the bounds. -/
theorem getD_replicate {α : Type} (n i : Nat) (a d : α) (h : i < n) :
    (List.replicate n a).getD i d = a := by
  rw [List.getD_eq_getElem?_getD, List.getElem?_replicate, if_pos h]
  rfl

/-- A 71×71 fully walkable matrix. -/
def walkable71 : TileMatrix :=
  List.replicate 71 (List.replicate 71 CollisionType.walkable)

/-- A snapshot with the 71×71 walkable grid centered on the player: every
cell lies inside the ±120 window. -/
def overlayWideCtx : Overlay.OverlayCtx :=
  { data := some
      { isIngame := true
        playerPosition := ⟨35, 35⟩
        areaName := "BigArea"
        objects := []
        monstersEnemies := []
        grid := some ⟨0, 0, 71, 71, walkable71⟩ }
    lastPath := none }

/-- C4, counterexample: the tile list has no 5000 cap — a 71×71 walkable
grid already produces 71×71 = 5041 tiles in a single payload. -/
theorem collectData_tiles_counterexample :
    5000 < (Overlay.collectData overlayWideCtx).tiles.length := by
  have hshape : (Overlay.collectData overlayWideCtx).tiles
      = (intRange 0 70).flatMap (fun worldY =>
          (intRange 0 70).filterMap (fun worldX =>
            let cell := (walkable71.getD (worldY - 0).toNat []).getD
              (worldX - 0).toNat CollisionType.nonWalkable
            if Overlay.overlayTileVisible cell then
              some ⟨((worldX - 35 : Int) : ℚ), ((worldY - 35 : Int) : ℚ), cell.code⟩
            else none)) := rfl
  rw [hshape, length_flatMap_eq _ _ 71, intRange_length]
  · omega
  · intro worldY hy
    rw [mem_intRange] at hy
    have hrow : walkable71.getD (worldY - 0).toNat []
        = List.replicate 71 CollisionType.walkable := by
      unfold walkable71
      exact getD_replicate _ _ _ _ (by omega)
    rw [hrow, length_filterMap_of_isSome, intRange_length]
    · rfl
    intro worldX hx
    rw [mem_intRange] at hx
    have hcell : (List.replicate 71 CollisionType.walkable).getD
        (worldX - 0).toNat CollisionType.nonWalkable = CollisionType.walkable :=
      getD_replicate _ _ _ _ (by omega)
    dsimp only
    rw [hcell]
    rfl

namespace Entrance

/-- The per-iteration environment of `InteractEntranceMouse`: everything
one loop iteration reads from the refreshed snapshot, the clock and the
helper calls.  Mouse coordinates, spiral offsets and the
alternative-approach bookkeeping do not influence the control flow or the
attempt counter and are abstracted away. -/
structure TickInput where
  reachedTarget : Bool
  waitShort : Bool
  targetLevelFound : Bool
  entranceFound : Bool
  moveRetriesFailed : Bool
  isEntrance : Bool
  hovering : Bool
deriving DecidableEq, Repr

/-- `maxInteractionAttempts := 21`. -/
def maxInteractionAttempts : Nat := 21

/-- The loop's mutable state: `interactionAttempts` starts at 1 and names
the next pointer-move attempt; `notFoundAttempts` is the `attempts`
counter for iterations whose target level is missing. -/
structure LoopState where
  interactionAttempts : Nat
  notFoundAttempts : Nat
  waitingForInteraction : Bool
deriving DecidableEq, Repr

/-- The distinct return values of `InteractEntranceMouse`. -/
inductive Outcome where
  | success
  | errCouldNotBeInteracted
  | errNotFoundAdjacent
  | errTooFar
  | errNotAnEntrance
deriving DecidableEq, Repr

/-- One iteration of the `for` loop of `InteractEntranceMouse`, in the
source's check order: success, attempt cap, wait-for-click, target level
lookup, fuzzy entrance match, distance recovery, and the pointer-move
attempt; `Sum.inl` is a return, `Sum.inr` the next loop state. -/
def stepEntrance (s : LoopState) (t : TickInput) : Outcome ⊕ LoopState :=
  if t.reachedTarget then Sum.inl Outcome.success
  else if maxInteractionAttempts < s.interactionAttempts then
    Sum.inl Outcome.errCouldNotBeInteracted
  else if s.waitingForInteraction ∧ t.waitShort then Sum.inr s
  else if ¬ t.targetLevelFound then
    if maxInteractionAttempts < s.notFoundAttempts + 1 then
      Sum.inl Outcome.errNotFoundAdjacent
    else Sum.inr { s with notFoundAttempts := s.notFoundAttempts + 1 }
  else if ¬ t.entranceFound then Sum.inr s
  else if t.moveRetriesFailed then Sum.inl Outcome.errTooFar
  else if t.isEntrance then
    Sum.inr { s with
      waitingForInteraction := s.waitingForInteraction || t.hovering
      interactionAttempts := s.interactionAttempts + 1 }
  else Sum.inl Outcome.errNotAnEntrance

/-- Run the loop over a list of tick inputs, also counting the
pointer-move attempts performed (the counter increments). -/
def runEntrance : List TickInput → LoopState → (Outcome ⊕ LoopState) × Nat
  | [], s => (Sum.inr s, 0)
  | t :: ts, s =>
    match stepEntrance s t with
    | Sum.inl outcome => (Sum.inl outcome, 0)
    | Sum.inr s' =>
      let rest := runEntrance ts s'
      (rest.1, (s'.interactionAttempts - s.interactionAttempts) + rest.2)

/-- The loop starts with attempt counter 1, zero not-found iterations and
no pending click. -/
def initialLoopState : LoopState := ⟨1, 0, false⟩

/-- `InteractEntranceMouse`, as a run from the initial state. -/
def interactEntranceMouse (ticks : List TickInput) :
    (Outcome ⊕ LoopState) × Nat :=
  runEntrance ticks initialLoopState

end Entrance

/-- A continuing iteration leaves the attempt counter unchanged, or — only
when it was still at or below the cap — increments it by one. -/
theorem stepEntrance_attempts {s : Entrance.LoopState} {t : Entrance.TickInput}
    {s' : Entrance.LoopState} (h : Entrance.stepEntrance s t = Sum.inr s') :
    s'.interactionAttempts = s.interactionAttempts ∨
      (s.interactionAttempts ≤ Entrance.maxInteractionAttempts ∧
        s'.interactionAttempts = s.interactionAttempts + 1) := by
  unfold Entrance.stepEntrance at h
  split_ifs at h with h1 h2 h3 h4 h5 h6 h7 h8 <;>
    cases h <;>
    first
      | exact Or.inl rfl
      | exact Or.inr ⟨by omega, rfl⟩

/-- Attempt-count bound along any run. -/
theorem runEntrance_moves_le :
    ∀ (ticks : List Entrance.TickInput) (s : Entrance.LoopState),
      s.interactionAttempts ≤ Entrance.maxInteractionAttempts + 1 →
      s.interactionAttempts + (Entrance.runEntrance ticks s).2 ≤
        Entrance.maxInteractionAttempts + 1
  | [], s, h => by
    simpa [Entrance.runEntrance] using h
  | t :: ts, s, h => by
    rw [Entrance.runEntrance]
    rcases hstep : Entrance.stepEntrance s t with o | s'
    · simpa using h
    · have hatt := stepEntrance_attempts hstep
      have hrec := runEntrance_moves_le ts s' (by
        rcases hatt with h' | ⟨hle, h'⟩ <;> omega)
      dsimp only
      rcases hatt with h' | ⟨hle, h'⟩ <;> omega

/-- C5: in every run of the mouse entrance interaction the number of
pointer-move attempts performed never exceeds the cap of 21; and at the
cap — any iteration entered after 21 attempts without the target area
reached — the loop fails with the distinct "could not be interacted"
error. -/
theorem interactEntranceMouse_cap :
    (∀ ticks : List Entrance.TickInput,
      (Entrance.interactEntranceMouse ticks).2 ≤ Entrance.maxInteractionAttempts) ∧
    (∀ (s : Entrance.LoopState) (t : Entrance.TickInput),
      t.reachedTarget = false →
      Entrance.maxInteractionAttempts < s.interactionAttempts →
      Entrance.stepEntrance s t = Sum.inl Entrance.Outcome.errCouldNotBeInteracted) := by
  constructor
  · intro ticks
    have h := runEntrance_moves_le ticks Entrance.initialLoopState (by decide)
    have h1 : Entrance.initialLoopState.interactionAttempts = 1 := rfl
    unfold Entrance.interactEntranceMouse
    omega
  · intro s t hreach hcap
    unfold Entrance.stepEntrance
    rw [hreach]
    rw [if_neg (by simp), if_pos hcap]

/-- C5 witness: the empty run performs no attempts, and an over-cap state
with a non-success tick returns the distinct error. -/
theorem interactEntranceMouse_cap_witness :
    (Entrance.interactEntranceMouse []).2 ≤ Entrance.maxInteractionAttempts ∧
      Entrance.stepEntrance ⟨22, 0, false⟩ ⟨false, false, true, true, false, true, false⟩
        = Sum.inl Entrance.Outcome.errCouldNotBeInteracted :=
  ⟨interactEntranceMouse_cap.1 [],
    interactEntranceMouse_cap.2 ⟨22, 0, false⟩
      ⟨false, false, true, true, false, true, false⟩ rfl (by decide)⟩

namespace Route

/-- Area identifiers (`area.ID`), as naturals; 0 is the Go zero value. -/
abbrev AreaID := Nat

/-- The navigation-relevant part of the bot context: the avatar's
teleport capability and discovered waypoints, the dynamic adjacency (the
live `AreaData` and the `Areas` cache), the static adjacency table, and
the fixed act partition with its `actTownWaypoints` table. -/
structure RouteCtx where
  canTeleport : Bool
  availableWaypoints : List AreaID
  areaDataArea : AreaID
  areaDataAdjacent : List AreaID
  areasAdjacent : AreaID → Option (List AreaID)
  staticAdjacency : AreaID → List AreaID
  act : AreaID → Nat
  actTownWaypoints : Nat → Option AreaID

/-- `collectNeighbors`: the deduplicated union of the dynamic adjacency —
the live `AreaData` when it is the queried area, else the `Areas[id]`
cache — and the static table. -/
def collectNeighbors (ctx : RouteCtx) (id : AreaID) : List AreaID :=
  let dynamic :=
    if ctx.areaDataArea = id then ctx.areaDataAdjacent
    else
      match ctx.areasAdjacent id with
      | some adj => adj
      | none => []
  (dynamic ++ ctx.staticAdjacency id).dedup

/-- `availableWaypointMap`: the set of discovered waypoints. -/
def availableWaypointMap (ctx : RouteCtx) : List AreaID :=
  ctx.availableWaypoints.dedup

/-- `collectWaypointNeighbors`: when the node's own waypoint is in the
available set, every other available waypoint is a destination; the act's
town waypoint is always added (when the act has one and it is not the
node itself). -/
def collectWaypointNeighbors (ctx : RouteCtx) (id : AreaID)
    (wpMap : List AreaID) : List AreaID :=
  let destinations := if id ∈ wpMap then wpMap.filter (fun d => d ≠ id) else []
  match ctx.actTownWaypoints (ctx.act id) with
  | some town =>
    if town ≠ id ∧ town ∉ destinations then destinations ++ [town]
    else destinations
  | none => destinations

/-- The cost constants of `move.go`. -/
def adjacencyCost : ℚ := 1

def waypointTeleportPenalty : ℚ := 1 / 10

def waypointNoTeleportPenalty : ℚ := 1

def townPortalPenalty : ℚ := 1 / 2

/-- `waypointTransitionCost`: 1.5 to the act's town, else 1.1 when the
avatar teleports and 2.0 when it walks. -/
def waypointTransitionCost (canTeleport toTown : Bool) : ℚ :=
  if toTown then adjacencyCost + townPortalPenalty
  else if canTeleport then adjacencyCost + waypointTeleportPenalty
  else adjacencyCost + waypointNoTeleportPenalty

/-- Association-list model of the Go `map[area.ID]float64`. -/
def lookupCost : List (AreaID × ℚ) → AreaID → Option ℚ
  | [], _ => none
  | (k, v) :: rest, a => if k = a then some v else lookupCost rest a

/-- Map write (replace in place, or append a fresh key). -/
def setCost : List (AreaID × ℚ) → AreaID → ℚ → List (AreaID × ℚ)
  | [], k, v => [(k, v)]
  | (k', v') :: rest, k, v =>
    if k' = k then (k, v) :: rest else (k', v') :: setCost rest k v

/-- `areaNeighborsWithCosts`: physical neighbors at `adjacencyCost`, then
(when waypoints are allowed) every waypoint destination at its transition
cost unless a cheaper entry already exists.  The Go town test
`neighbor == actTownWaypoints[id.Act()]` reads the map with a zero value
on a miss, modelled by `getD 0`. -/
def adjStep (m : List (AreaID × ℚ)) (neighbor : AreaID) : List (AreaID × ℚ) :=
  setCost m neighbor adjacencyCost

/-- The body of the waypoint loop of `areaNeighborsWithCosts`. -/
def wpStep (ctx : RouteCtx) (id : AreaID) (m : List (AreaID × ℚ))
    (neighbor : AreaID) : List (AreaID × ℚ) :=
  let cost := waypointTransitionCost ctx.canTeleport
    (decide ((ctx.actTownWaypoints (ctx.act id)).getD 0 = neighbor))
  match lookupCost m neighbor with
  | some existing => if cost < existing then setCost m neighbor cost else m
  | none => setCost m neighbor cost

def areaNeighborsWithCosts (ctx : RouteCtx) (id : AreaID) (wpMap : List AreaID)
    (allowWaypoints : Bool) : List (AreaID × ℚ) :=
  let dedup := (collectNeighbors ctx id).foldl adjStep []
  if allowWaypoints then
    (collectWaypointNeighbors ctx id wpMap).foldl (wpStep ctx id) dedup
  else dedup

/-- `container/heap` Pop: the minimum-priority queue item; ties resolve
to the earliest item, one definite choice among the orders the heap may
produce. -/
def popMin : List (AreaID × ℚ) → Option ((AreaID × ℚ) × List (AreaID × ℚ))
  | [] => none
  | x :: xs =>
    match popMin xs with
    | none => some (x, [])
    | some (m, rest) => if x.2 ≤ m.2 then some (x, xs) else some (m, x :: rest)

/-- Association-list model of the `prev` predecessor map. -/
def lookupPrev : List (AreaID × AreaID) → AreaID → Option AreaID
  | [], _ => none
  | (k, v) :: rest, a => if k = a then some v else lookupPrev rest a

def setPrev : List (AreaID × AreaID) → AreaID → AreaID → List (AreaID × AreaID)
  | [], k, v => [(k, v)]
  | (k', v') :: rest, k, v =>
    if k' = k then (k, v) :: rest else (k', v') :: setPrev rest k v

/-- The Dijkstra working state of `weightedAreaPath`. -/
structure DijkstraState where
  dist : List (AreaID × ℚ)
  prev : List (AreaID × AreaID)
  queue : List (AreaID × ℚ)

/-- The body of the inner neighbor loop: relax a single neighbor. -/
def relaxStep (cur : AreaID) (pri : ℚ) (s : DijkstraState)
    (nb : AreaID × ℚ) : DijkstraState :=
  let alt := pri + nb.2
  match lookupCost s.dist nb.1 with
  | some prevCost =>
    if alt < prevCost then
      { dist := setCost s.dist nb.1 alt
        prev := setPrev s.prev nb.1 cur
        queue := s.queue ++ [(nb.1, alt)] }
    else s
  | none =>
    { dist := setCost s.dist nb.1 alt
      prev := setPrev s.prev nb.1 cur
      queue := s.queue ++ [(nb.1, alt)] }

/-- The inner neighbor loop: relax every neighbor of the popped node. -/
def relaxNeighbors (cur : AreaID) (pri : ℚ) (neighbors : List (AreaID × ℚ))
    (s : DijkstraState) : DijkstraState :=
  neighbors.foldl (relaxStep cur pri) s

/-- The main Dijkstra loop, fuel-bounded (the Go loop runs until the
queue empties or the goal pops; `current.priority > dist[current.area]`
skips stale items, with the map's zero value on a miss). -/
def dijkstraLoop (ctx : RouteCtx) (wpMap : List AreaID) (allowWaypoints : Bool)
    (goal : AreaID) : Nat → DijkstraState → DijkstraState
  | 0, s => s
  | fuel + 1, s =>
    match popMin s.queue with
    | none => s
    | some (current, rest) =>
      if current.1 = goal then { s with queue := rest }
      else if (lookupCost s.dist current.1).getD 0 < current.2 then
        dijkstraLoop ctx wpMap allowWaypoints goal fuel { s with queue := rest }
      else
        dijkstraLoop ctx wpMap allowWaypoints goal fuel
          (relaxNeighbors current.1 current.2
            (areaNeighborsWithCosts ctx current.1 wpMap allowWaypoints)
            { s with queue := rest })

/-- The `reconstructAreaPath` walk along `prev`; the current node is
always the head of the accumulated path, exactly as in the Go loop. -/
def reconstructLoop (prev : List (AreaID × AreaID)) (start : AreaID) :
    Nat → List AreaID → List AreaID
  | 0, path => path
  | fuel + 1, path =>
    match path with
    | [] => []
    | current :: _ =>
      if current = start then path
      else
        match lookupPrev prev current with
        | none => path
        | some p => reconstructLoop prev start fuel (p :: path)

/-- `reconstructAreaPath`: walk back from the goal and prepend the start
when the chain broke before reaching it.  The fuel `prev.length + 1`
always suffices (the chain visits distinct `prev` keys), so the model
agrees with the unbounded Go loop. -/
def reconstructAreaPath (prev : List (AreaID × AreaID)) (start goal : AreaID) :
    List AreaID :=
  let path := reconstructLoop prev start (prev.length + 1) [goal]
  if path.headD 0 ≠ start then start :: path else path

/-- `weightedAreaPath`: Dijkstra from `start`, stopping at `goal`, then
path reconstruction; `none` when the goal was never reached. -/
def weightedAreaPath (ctx : RouteCtx) (start goal : AreaID)
    (allowWaypoints : Bool) (fuel : Nat) : Option (List AreaID) :=
  if start = goal then some [start]
  else
    let wpMap := if allowWaypoints then availableWaypointMap ctx else []
    let s := dijkstraLoop ctx wpMap allowWaypoints goal fuel
      { dist := [(start, 0)], prev := [], queue := [(start, 0)] }
    match lookupCost s.dist goal with
    | none => none
    | some _ => some (reconstructAreaPath s.prev start goal)

end Route

namespace Route

/-- A fold preserves any invariant its step preserves on list elements. -/
theorem foldl_inv {α β : Type} (P : β → Prop) (l : List α) (step : β → α → β)
    (hstep : ∀ b a, a ∈ l → P b → P (step b a)) :
    ∀ b, P b → P (l.foldl step b) := by
  induction l with
  | nil => intro b hb; exact hb
  | cons a l ih =>
    intro b hb
    exact ih (fun b' a' ha' hb' => hstep b' a' (List.mem_cons_of_mem _ ha') hb')
      (step b a) (hstep b a (List.mem_cons_self _ _) hb)

theorem lookupCost_setCost (m : List (AreaID × ℚ)) (k : AreaID) (v : ℚ)
    (a : AreaID) :
    lookupCost (setCost m k v) a = if a = k then some v else lookupCost m a := by
  induction m with
  | nil =>
    simp only [setCost, lookupCost]
    by_cases h : a = k
    · subst h; simp
    · have h2 : ¬ k = a := fun h' => h h'.symm
      simp [h, h2]
  | cons hd tl ih =>
    obtain ⟨k', v'⟩ := hd
    simp only [setCost]
    by_cases h1 : k' = k
    · subst h1
      rw [if_pos rfl]
      simp only [lookupCost]
      by_cases h : a = k'
      · subst h; simp
      · have h2 : ¬ k' = a := fun h' => h h'.symm
        simp [h, h2]
    · rw [if_neg h1]
      simp only [lookupCost, ih]
      by_cases h : a = k
      · subst h
        have h2 : ¬ k' = a := h1
        simp [h2]
      · simp [h]

theorem lookupPrev_setPrev (m : List (AreaID × AreaID)) (k v a : AreaID) :
    lookupPrev (setPrev m k v) a = if a = k then some v else lookupPrev m a := by
  induction m with
  | nil =>
    simp only [setPrev, lookupPrev]
    by_cases h : a = k
    · subst h; simp
    · have h2 : ¬ k = a := fun h' => h h'.symm
      simp [h, h2]
  | cons hd tl ih =>
    obtain ⟨k', v'⟩ := hd
    simp only [setPrev]
    by_cases h1 : k' = k
    · subst h1
      rw [if_pos rfl]
      simp only [lookupPrev]
      by_cases h : a = k'
      · subst h; simp
      · have h2 : ¬ k' = a := fun h' => h h'.symm
        simp [h, h2]
    · rw [if_neg h1]
      simp only [lookupPrev, ih]
      by_cases h : a = k
      · subst h
        have h2 : ¬ k' = a := h1
        simp [h2]
      · simp [h]

theorem lookupCost_isSome_iff (m : List (AreaID × ℚ)) (a : AreaID) :
    (lookupCost m a).isSome = true ↔ a ∈ m.map Prod.fst := by
  induction m with
  | nil => simp [lookupCost]
  | cons hd tl ih =>
    obtain ⟨k, v⟩ := hd
    by_cases h : k = a
    · subst h
      simp [lookupCost]
    · have h2 : ¬ a = k := fun h' => h h'.symm
      simp only [lookupCost, if_neg h, List.map_cons, List.mem_cons, ih]
      constructor
      · exact Or.inr
      · rintro (h3 | h3)
        · exact absurd h3 h2
        · exact h3

theorem lookupPrev_isSome_iff (m : List (AreaID × AreaID)) (a : AreaID) :
    (lookupPrev m a).isSome = true ↔ a ∈ m.map Prod.fst := by
  induction m with
  | nil => simp [lookupPrev]
  | cons hd tl ih =>
    obtain ⟨k, v⟩ := hd
    by_cases h : k = a
    · subst h
      simp [lookupPrev]
    · have h2 : ¬ a = k := fun h' => h h'.symm
      simp only [lookupPrev, if_neg h, List.map_cons, List.mem_cons, ih]
      constructor
      · exact Or.inr
      · rintro (h3 | h3)
        · exact absurd h3 h2
        · exact h3

theorem lookupCost_eq_some_of_mem (m : List (AreaID × ℚ)) (a : AreaID) (c : ℚ)
    (hnd : (m.map Prod.fst).Nodup) (hmem : (a, c) ∈ m) :
    lookupCost m a = some c := by
  induction m with
  | nil => simp at hmem
  | cons hd tl ih =>
    obtain ⟨k, v⟩ := hd
    simp only [List.map_cons, List.nodup_cons] at hnd
    simp only [List.mem_cons] at hmem
    rcases hmem with hmem | hmem
    · rw [Prod.mk.injEq] at hmem
      simp [lookupCost, hmem.1, hmem.2]
    · have hka : ¬ k = a := by
        intro h
        subst h
        exact hnd.1 (List.mem_map_of_mem Prod.fst hmem)
      simp [lookupCost, hka, ih hnd.2 hmem]

theorem mem_map_fst_setCost (m : List (AreaID × ℚ)) (k : AreaID) (v : ℚ)
    (a : AreaID) :
    a ∈ (setCost m k v).map Prod.fst ↔ a ∈ m.map Prod.fst ∨ a = k := by
  rw [← lookupCost_isSome_iff, lookupCost_setCost, ← lookupCost_isSome_iff]
  by_cases h : a = k <;> simp [h]

theorem nodup_map_fst_setCost (m : List (AreaID × ℚ)) (k : AreaID) (v : ℚ)
    (hnd : (m.map Prod.fst).Nodup) :
    ((setCost m k v).map Prod.fst).Nodup := by
  induction m with
  | nil => simp [setCost]
  | cons hd tl ih =>
    obtain ⟨k', v'⟩ := hd
    simp only [List.map_cons, List.nodup_cons] at hnd
    simp only [setCost]
    by_cases h1 : k' = k
    · subst h1
      rw [if_pos rfl]
      simp only [List.map_cons, List.nodup_cons]
      exact hnd
    · rw [if_neg h1]
      simp only [List.map_cons, List.nodup_cons]
      refine ⟨?_, ih hnd.2⟩
      intro hmem
      rw [mem_map_fst_setCost] at hmem
      rcases hmem with hmem | hmem
      · exact hnd.1 hmem
      · exact h1 hmem

theorem mem_map_fst_setPrev (m : List (AreaID × AreaID)) (k v a : AreaID) :
    a ∈ (setPrev m k v).map Prod.fst ↔ a ∈ m.map Prod.fst ∨ a = k := by
  rw [← lookupPrev_isSome_iff, lookupPrev_setPrev, ← lookupPrev_isSome_iff]
  by_cases h : a = k <;> simp [h]

theorem nodup_map_fst_setPrev (m : List (AreaID × AreaID)) (k v : AreaID)
    (hnd : (m.map Prod.fst).Nodup) :
    ((setPrev m k v).map Prod.fst).Nodup := by
  induction m with
  | nil => simp [setPrev]
  | cons hd tl ih =>
    obtain ⟨k', v'⟩ := hd
    simp only [List.map_cons, List.nodup_cons] at hnd
    simp only [setPrev]
    by_cases h1 : k' = k
    · subst h1
      rw [if_pos rfl]
      simp only [List.map_cons, List.nodup_cons]
      exact hnd
    · rw [if_neg h1]
      simp only [List.map_cons, List.nodup_cons]
      refine ⟨?_, ih hnd.2⟩
      intro hmem
      rw [mem_map_fst_setPrev] at hmem
      rcases hmem with hmem | hmem
      · exact hnd.1 hmem
      · exact h1 hmem

end Route

namespace Route

theorem lookupCost_foldl_adjStep (l : List AreaID) :
    ∀ (m : List (AreaID × ℚ)) (k : AreaID),
      lookupCost (l.foldl adjStep m) k =
        if k ∈ l then some adjacencyCost else lookupCost m k := by
  induction l with
  | nil => intro m k; simp
  | cons n l ih =>
    intro m k
    simp only [List.foldl_cons, ih, adjStep, lookupCost_setCost, List.mem_cons]
    by_cases h1 : k ∈ l
    · simp [h1]
    · by_cases h2 : k = n
      · simp [h1, h2]
      · simp [h1, h2]

theorem nodup_map_fst_foldl_adjStep (l : List AreaID) (m : List (AreaID × ℚ))
    (hnd : (m.map Prod.fst).Nodup) :
    (((l.foldl adjStep m)).map Prod.fst).Nodup := by
  refine foldl_inv (fun m => ((m.map Prod.fst)).Nodup) l adjStep ?_ m hnd
  intro m' a _ hm'
  exact nodup_map_fst_setCost m' a adjacencyCost hm'

theorem adjacencyCost_le_waypointTransitionCost (ct tt : Bool) :
    adjacencyCost ≤ waypointTransitionCost ct tt := by
  cases ct <;> cases tt <;>
    simp [waypointTransitionCost, adjacencyCost, townPortalPenalty,
      waypointTeleportPenalty, waypointNoTeleportPenalty]

theorem adjacencyCost_pos : (0 : ℚ) < adjacencyCost := by
  norm_num [adjacencyCost]

/-- The invariant carried through the waypoint loop of
`areaNeighborsWithCosts`: keys are unique, every physical neighbor keeps
cost `adjacencyCost`, and every other key has exactly the waypoint
transition cost of its destination. -/
def CostMapInv (ctx : RouteCtx) (id : AreaID) (m : List (AreaID × ℚ)) : Prop :=
  ((m.map Prod.fst).Nodup) ∧
    (∀ k, k ∈ collectNeighbors ctx id → lookupCost m k = some adjacencyCost) ∧
    (∀ k c, lookupCost m k = some c →
      if k ∈ collectNeighbors ctx id then c = adjacencyCost
      else c = waypointTransitionCost ctx.canTeleport
        (decide ((ctx.actTownWaypoints (ctx.act id)).getD 0 = k)))

theorem costMapInv_wpStep (ctx : RouteCtx) (id : AreaID)
    (m : List (AreaID × ℚ)) (n : AreaID) (hm : CostMapInv ctx id m) :
    CostMapInv ctx id (wpStep ctx id m n) := by
  obtain ⟨hnd, hcov, hchar⟩ := hm
  unfold wpStep
  cases hl : lookupCost m n with
  | some existing =>
    dsimp only
    by_cases hlt : waypointTransitionCost ctx.canTeleport
        (decide ((ctx.actTownWaypoints (ctx.act id)).getD 0 = n)) < existing
    · exfalso
      have hchr := hchar n existing hl
      by_cases hmem : n ∈ collectNeighbors ctx id
      · rw [if_pos hmem] at hchr
        subst hchr
        exact absurd hlt
          (not_lt.mpr (adjacencyCost_le_waypointTransitionCost _ _))
      · rw [if_neg hmem] at hchr
        subst hchr
        exact lt_irrefl _ hlt
    · rw [if_neg hlt]
      exact ⟨hnd, hcov, hchar⟩
  | none =>
    dsimp only
    have hmem : n ∉ collectNeighbors ctx id := by
      intro hmem
      rw [hcov n hmem] at hl
      exact Option.noConfusion hl
    refine ⟨nodup_map_fst_setCost m n _ hnd, ?_, ?_⟩
    · intro k hk
      rw [lookupCost_setCost]
      have : ¬ k = n := fun h => hmem (h ▸ hk)
      rw [if_neg this]
      exact hcov k hk
    · intro k c
      rw [lookupCost_setCost]
      by_cases hkn : k = n
      · subst hkn
        rw [if_pos rfl, if_neg hmem]
        intro h
        exact (Option.some.injEq _ _ ▸ h).symm
      · rw [if_neg hkn]
        exact hchar k c

theorem costMapInv_areaNeighborsWithCosts (ctx : RouteCtx) (id : AreaID)
    (wpMap : List AreaID) (allow : Bool) :
    CostMapInv ctx id (areaNeighborsWithCosts ctx id wpMap allow) := by
  have hbase : CostMapInv ctx id ((collectNeighbors ctx id).foldl adjStep []) := by
    refine ⟨nodup_map_fst_foldl_adjStep _ _ (by simp), ?_, ?_⟩
    · intro k hk
      rw [lookupCost_foldl_adjStep, if_pos hk]
    · intro k c
      rw [lookupCost_foldl_adjStep]
      by_cases hk : k ∈ collectNeighbors ctx id
      · rw [if_pos hk, if_pos hk]
        intro h
        exact ((Option.some.injEq _ _ ▸ h)).symm
      · rw [if_neg hk]
        intro h
        exact absurd h (by simp [lookupCost])
  unfold areaNeighborsWithCosts
  cases allow with
  | false => exact hbase
  | true =>
    dsimp only
    refine foldl_inv (CostMapInv ctx id) _ (wpStep ctx id) ?_ _ hbase
    intro m a _ hm
    exact costMapInv_wpStep ctx id m a hm

/-- Cost characterization of every entry produced by
`areaNeighborsWithCosts`. -/
theorem areaNeighborsWithCosts_spec (ctx : RouteCtx) (id : AreaID)
    (wpMap : List AreaID) (allow : Bool) (n : AreaID) (c : ℚ)
    (h : (n, c) ∈ areaNeighborsWithCosts ctx id wpMap allow) :
    if n ∈ collectNeighbors ctx id then c = adjacencyCost
    else c = waypointTransitionCost ctx.canTeleport
      (decide ((ctx.actTownWaypoints (ctx.act id)).getD 0 = n)) := by
  obtain ⟨hnd, _, hchar⟩ := costMapInv_areaNeighborsWithCosts ctx id wpMap allow
  exact hchar n c (lookupCost_eq_some_of_mem _ n c hnd h)

/-- Every edge cost is at least the adjacency cost, hence positive. -/
theorem areaNeighborsWithCosts_pos (ctx : RouteCtx) (id : AreaID)
    (wpMap : List AreaID) (allow : Bool) (nb : AreaID × ℚ)
    (h : nb ∈ areaNeighborsWithCosts ctx id wpMap allow) : 0 < nb.2 := by
  have hs := areaNeighborsWithCosts_spec ctx id wpMap allow nb.1 nb.2 h
  by_cases hmem : nb.1 ∈ collectNeighbors ctx id
  · rw [if_pos hmem] at hs
    rw [hs]
    exact adjacencyCost_pos
  · rw [if_neg hmem] at hs
    rw [hs]
    exact lt_of_lt_of_le adjacencyCost_pos
      (adjacencyCost_le_waypointTransitionCost _ _)

end Route

/-- A context whose only route information is the static edge 1 → 5. -/
def physCtx : Route.RouteCtx :=
  { canTeleport := false
    availableWaypoints := []
    areaDataArea := 0
    areaDataAdjacent := []
    areasAdjacent := fun _ => none
    staticAdjacency := fun a => if a = 1 then [5] else []
    act := fun _ => 1
    actTownWaypoints := fun _ => none }

/-- C7: every edge considered by the weighted area route costs exactly
1.0 for a physical (static or dynamic) adjacency, 1.5 for a waypoint hop
to the act's town waypoint (the `actTownWaypoints` read with Go's zero
value on a miss), 1.1 for any other waypoint hop when the avatar can
teleport, and 2.0 when it cannot. -/
theorem areaNeighborsWithCosts_cost (ctx : Route.RouteCtx) (id : Route.AreaID)
    (wpMap : List Route.AreaID) (allow : Bool) (n : Route.AreaID) (c : ℚ)
    (h : (n, c) ∈ Route.areaNeighborsWithCosts ctx id wpMap allow) :
    if n ∈ Route.collectNeighbors ctx id then c = 1
    else if (ctx.actTownWaypoints (ctx.act id)).getD 0 = n then c = 3 / 2
    else if ctx.canTeleport = true then c = 11 / 10
    else c = 2 := by
  have hs := Route.areaNeighborsWithCosts_spec ctx id wpMap allow n c h
  by_cases h1 : n ∈ Route.collectNeighbors ctx id
  · rw [if_pos h1] at hs
    rw [if_pos h1, hs, Route.adjacencyCost]
  · rw [if_neg h1] at hs
    rw [if_neg h1]
    by_cases h2 : (ctx.actTownWaypoints (ctx.act id)).getD 0 = n
    · rw [if_pos h2]
      rw [hs, decide_eq_true h2]
      rw [Route.waypointTransitionCost, if_pos rfl, Route.adjacencyCost,
        Route.townPortalPenalty]
      norm_num
    · rw [if_neg h2]
      rw [hs, decide_eq_false h2]
      cases h3 : ctx.canTeleport with
      | true =>
        rw [if_pos rfl]
        rw [Route.waypointTransitionCost]
        simp only [Bool.false_eq_true, if_false, if_pos rfl]
        rw [Route.adjacencyCost, Route.waypointTeleportPenalty]
        norm_num
      | false =>
        simp only [Bool.false_eq_true, if_false]
        rw [Route.waypointTransitionCost]
        simp only [Bool.false_eq_true, if_false]
        rw [Route.adjacencyCost, Route.waypointNoTeleportPenalty]
        norm_num

/-- The C7 characterization evaluated on the concrete context `physCtx`
at its one physical edge 1 → 5 of cost 1. -/
theorem areaNeighborsWithCosts_cost_witness :
    if 5 ∈ Route.collectNeighbors physCtx 1 then (1 : ℚ) = 1
    else if (physCtx.actTownWaypoints (physCtx.act 1)).getD 0 = 5 then
      (1 : ℚ) = 3 / 2
    else if physCtx.canTeleport = true then (1 : ℚ) = 11 / 10
    else (1 : ℚ) = 2 :=
  areaNeighborsWithCosts_cost physCtx 1 [] false 5 1 (by decide)

namespace Route

theorem mem_collectWaypointNeighbors (ctx : RouteCtx) (id : AreaID)
    (wpMap : List AreaID) (k : AreaID) :
    k ∈ collectWaypointNeighbors ctx id wpMap ↔
      ((id ∈ wpMap ∧ k ∈ wpMap ∧ k ≠ id) ∨
        (ctx.actTownWaypoints (ctx.act id) = some k ∧ k ≠ id)) := by
  unfold collectWaypointNeighbors
  have hdest : ∀ a, (a ∈ (if id ∈ wpMap then wpMap.filter (fun d => d ≠ id)
      else [])) ↔ (id ∈ wpMap ∧ a ∈ wpMap ∧ a ≠ id) := by
    intro a
    by_cases hid : id ∈ wpMap
    · simp [hid, List.mem_filter]
    · simp [hid]
  cases htw : ctx.actTownWaypoints (ctx.act id) with
  | none =>
    dsimp only
    rw [hdest]
    simp
  | some town =>
    dsimp only
    by_cases hcond : town ≠ id ∧
        town ∉ (if id ∈ wpMap then wpMap.filter (fun d => d ≠ id) else [])
    · rw [if_pos hcond, List.mem_append, List.mem_singleton, hdest]
      constructor
      · rintro (h | h)
        · exact Or.inl h
        · subst h
          exact Or.inr ⟨rfl, hcond.1⟩
      · rintro (h | h)
        · exact Or.inl h
        · rcases h with ⟨h1, _⟩
          exact Or.inr (Option.some.inj h1).symm
    · rw [if_neg hcond, hdest]
      constructor
      · exact Or.inl
      · rintro (h | h)
        · exact h
        · rcases h with ⟨h1, h2⟩
          have hk : k = town := (Option.some.inj h1).symm
          subst hk
          rcases not_and_or.mp hcond with h3 | h3
          · exact absurd h2 (not_not.mp (by simpa using h3))
          · rw [← hdest]
            exact not_not.mp h3

theorem lookupCost_wpStep_isSome (ctx : RouteCtx) (id : AreaID)
    (m : List (AreaID × ℚ)) (n k : AreaID) :
    (lookupCost (wpStep ctx id m n) k).isSome = true ↔
      k = n ∨ (lookupCost m k).isSome = true := by
  unfold wpStep
  cases hl : lookupCost m n with
  | some existing =>
    dsimp only
    by_cases hlt : waypointTransitionCost ctx.canTeleport
        (decide ((ctx.actTownWaypoints (ctx.act id)).getD 0 = n)) < existing
    · rw [if_pos hlt, lookupCost_setCost]
      by_cases hk : k = n
      · simp [hk]
      · simp [hk]
    · rw [if_neg hlt]
      by_cases hk : k = n
      · subst hk
        simp [hl]
      · simp [hk]
  | none =>
    dsimp only
    rw [lookupCost_setCost]
    by_cases hk : k = n
    · simp [hk]
    · simp [hk]

theorem lookupCost_foldl_wpStep_isSome (ctx : RouteCtx) (id : AreaID)
    (wps : List AreaID) :
    ∀ (m : List (AreaID × ℚ)) (k : AreaID),
      (lookupCost (wps.foldl (wpStep ctx id) m) k).isSome = true ↔
        k ∈ wps ∨ (lookupCost m k).isSome = true := by
  induction wps with
  | nil => intro m k; simp
  | cons n wps ih =>
    intro m k
    rw [List.foldl_cons, ih, lookupCost_wpStep_isSome]
    constructor
    · rintro (h | h | h)
      · exact Or.inl (List.mem_cons_of_mem _ h)
      · exact Or.inl (h ▸ List.mem_cons_self _ _)
      · exact Or.inr h
    · rintro (h | h)
      · rcases List.mem_cons.mp h with h1 | h1
        · exact Or.inr (Or.inl h1)
        · exact Or.inl h1
      · exact Or.inr (Or.inr h)

theorem mem_map_fst_areaNeighborsWithCosts (ctx : RouteCtx) (id : AreaID)
    (wpMap : List AreaID) (allow : Bool) (k : AreaID) :
    k ∈ (areaNeighborsWithCosts ctx id wpMap allow).map Prod.fst ↔
      (k ∈ collectNeighbors ctx id ∨
        (allow = true ∧ k ∈ collectWaypointNeighbors ctx id wpMap)) := by
  rw [← lookupCost_isSome_iff]
  unfold areaNeighborsWithCosts
  cases allow with
  | false =>
    dsimp only
    rw [if_neg (by simp), lookupCost_foldl_adjStep]
    by_cases hk : k ∈ collectNeighbors ctx id
    · simp [hk]
    · simp [hk, lookupCost]
  | true =>
    dsimp only
    rw [if_pos rfl, lookupCost_foldl_wpStep_isSome, lookupCost_foldl_adjStep]
    by_cases hk : k ∈ collectNeighbors ctx id
    · simp [hk]
    · simp [hk, lookupCost, Or.comm]

end Route

namespace Route

theorem popMin_mem :
    ∀ (q : List (AreaID × ℚ)) (x : AreaID × ℚ) (rest : List (AreaID × ℚ)),
      popMin q = some (x, rest) → x ∈ q := by
  intro q
  induction q with
  | nil => intro x rest h; simp [popMin] at h
  | cons a as ih =>
    intro x rest h
    rw [popMin] at h
    cases hq : popMin as with
    | none =>
      rw [hq] at h
      injection h with h'
      rw [Prod.mk.injEq] at h'
      exact h'.1 ▸ List.mem_cons_self _ _
    | some mr =>
      obtain ⟨m, r⟩ := mr
      rw [hq] at h
      dsimp only at h
      by_cases hle : a.2 ≤ m.2
      · rw [if_pos hle] at h
        injection h with h'
        rw [Prod.mk.injEq] at h'
        exact h'.1 ▸ List.mem_cons_self _ _
      · rw [if_neg hle] at h
        injection h with h'
        rw [Prod.mk.injEq] at h'
        exact List.mem_cons_of_mem _ (h'.1 ▸ ih m r hq)

theorem popMin_rest_subset :
    ∀ (q : List (AreaID × ℚ)) (x : AreaID × ℚ) (rest : List (AreaID × ℚ)),
      popMin q = some (x, rest) → ∀ y ∈ rest, y ∈ q := by
  intro q
  induction q with
  | nil => intro x rest h; simp [popMin] at h
  | cons a as ih =>
    intro x rest h y hy
    rw [popMin] at h
    cases hq : popMin as with
    | none =>
      rw [hq] at h
      injection h with h'
      rw [Prod.mk.injEq] at h'
      rw [← h'.2] at hy
      simp at hy
    | some mr =>
      obtain ⟨m, r⟩ := mr
      rw [hq] at h
      dsimp only at h
      by_cases hle : a.2 ≤ m.2
      · rw [if_pos hle] at h
        injection h with h'
        rw [Prod.mk.injEq] at h'
        rw [← h'.2] at hy
        exact List.mem_cons_of_mem _ hy
      · rw [if_neg hle] at h
        injection h with h'
        rw [Prod.mk.injEq] at h'
        rw [← h'.2] at hy
        rcases List.mem_cons.mp hy with h1 | h1
        · exact h1 ▸ List.mem_cons_self _ _
        · exact List.mem_cons_of_mem _ (ih m r hq y h1)

/-- The loop invariant of `weightedAreaPath`'s Dijkstra search: every
`prev` edge is one of the node's computed neighbor edges, every settled
node other than the start has a predecessor, distances strictly decrease
along `prev`, every queued priority is at least the recorded distance,
and `prev` has unique keys. -/
structure DijkstraInv (ctx : RouteCtx) (wpMap : List AreaID) (allow : Bool)
    (start : AreaID) (s : DijkstraState) : Prop where
  edges : ∀ k v, lookupPrev s.prev k = some v →
    k ∈ (areaNeighborsWithCosts ctx v wpMap allow).map Prod.fst
  coverage : ∀ k, k ≠ start → (lookupCost s.dist k).isSome = true →
    (lookupPrev s.prev k).isSome = true
  decrease : ∀ k v, lookupPrev s.prev k = some v →
    ∃ dv dk, lookupCost s.dist v = some dv ∧ lookupCost s.dist k = some dk ∧
      dv < dk
  queueDist : ∀ a p, (a, p) ∈ s.queue →
    ∃ d, lookupCost s.dist a = some d ∧ d ≤ p
  prevNodup : (s.prev.map Prod.fst).Nodup

/-- Updating one neighbor to a strictly smaller tentative distance
preserves the invariant. -/
theorem relaxUpdate_inv (ctx : RouteCtx) (wpMap : List AreaID) (allow : Bool)
    (start cur : AreaID) (pri : ℚ) (s : DijkstraState) (nb : AreaID × ℚ)
    (hinv : DijkstraInv ctx wpMap allow start s)
    (hcur : lookupCost s.dist cur = some pri)
    (hnb : nb.1 ∈ (areaNeighborsWithCosts ctx cur wpMap allow).map Prod.fst)
    (hpos : 0 < nb.2)
    (hlt : ∀ c, lookupCost s.dist nb.1 = some c → pri + nb.2 < c) :
    DijkstraInv ctx wpMap allow start
        ⟨setCost s.dist nb.1 (pri + nb.2), setPrev s.prev nb.1 cur,
          s.queue ++ [(nb.1, pri + nb.2)]⟩ ∧
      lookupCost (setCost s.dist nb.1 (pri + nb.2)) cur = some pri := by
  have hne : nb.1 ≠ cur := by
    intro h
    rw [h, hcur] at hlt
    have := hlt pri rfl
    linarith
  have hcur' : lookupCost (setCost s.dist nb.1 (pri + nb.2)) cur = some pri := by
    rw [lookupCost_setCost, if_neg (fun h => hne h.symm), hcur]
  refine ⟨⟨?_, ?_, ?_, ?_, ?_⟩, hcur'⟩
  · intro k v hkv
    rw [lookupPrev_setPrev] at hkv
    by_cases hk : k = nb.1
    · rw [if_pos hk] at hkv
      have hv : v = cur := (Option.some.inj hkv).symm
      rw [hv, hk]
      exact hnb
    · rw [if_neg hk] at hkv
      exact hinv.edges k v hkv
  · intro k hk hks
    rw [lookupCost_setCost] at hks
    rw [lookupPrev_setPrev]
    by_cases hkn : k = nb.1
    · rw [if_pos hkn]
      simp
    · rw [if_neg hkn] at hks
      rw [if_neg hkn]
      exact hinv.coverage k hk hks
  · intro k v hkv
    rw [lookupPrev_setPrev] at hkv
    by_cases hkn : k = nb.1
    · rw [if_pos hkn] at hkv
      have hv : v = cur := (Option.some.inj hkv).symm
      refine ⟨pri, pri + nb.2, hv ▸ hcur', ?_, by linarith⟩
      rw [hkn, lookupCost_setCost, if_pos rfl]
    · rw [if_neg hkn] at hkv
      obtain ⟨dv, dk, h1, h2, h3⟩ := hinv.decrease k v hkv
      by_cases hvn : v = nb.1
      · refine ⟨pri + nb.2, dk, ?_, ?_, ?_⟩
        · rw [hvn, lookupCost_setCost, if_pos rfl]
        · rw [lookupCost_setCost, if_neg hkn]
          exact h2
        · have := hlt dv (hvn ▸ h1)
          linarith
      · refine ⟨dv, dk, ?_, ?_, h3⟩
        · rw [lookupCost_setCost, if_neg hvn]
          exact h1
        · rw [lookupCost_setCost, if_neg hkn]
          exact h2
  · intro a p hap
    rcases List.mem_append.mp hap with hap | hap
    · obtain ⟨d, hd, hdp⟩ := hinv.queueDist a p hap
      by_cases han : a = nb.1
      · refine ⟨pri + nb.2, ?_, ?_⟩
        · rw [han, lookupCost_setCost, if_pos rfl]
        · have := hlt d (han ▸ hd)
          linarith
      · refine ⟨d, ?_, hdp⟩
        rw [lookupCost_setCost, if_neg han]
        exact hd
    · rw [List.mem_singleton, Prod.mk.injEq] at hap
      refine ⟨pri + nb.2, ?_, le_of_eq hap.2.symm⟩
      rw [hap.1, lookupCost_setCost, if_pos rfl]
  · exact nodup_map_fst_setPrev s.prev nb.1 cur hinv.prevNodup

/-- A single relaxation preserves the invariant and the popped node's
recorded distance. -/
theorem relaxStep_inv (ctx : RouteCtx) (wpMap : List AreaID) (allow : Bool)
    (start cur : AreaID) (pri : ℚ) (s : DijkstraState) (nb : AreaID × ℚ)
    (hmem : nb ∈ areaNeighborsWithCosts ctx cur wpMap allow)
    (hinv : DijkstraInv ctx wpMap allow start s)
    (hcur : lookupCost s.dist cur = some pri) :
    DijkstraInv ctx wpMap allow start (relaxStep cur pri s nb) ∧
      lookupCost (relaxStep cur pri s nb).dist cur = some pri := by
  have hnb : nb.1 ∈ (areaNeighborsWithCosts ctx cur wpMap allow).map Prod.fst :=
    List.mem_map_of_mem Prod.fst hmem
  have hpos : 0 < nb.2 := areaNeighborsWithCosts_pos ctx cur wpMap allow nb hmem
  unfold relaxStep
  cases hl : lookupCost s.dist nb.1 with
  | some prevCost =>
    dsimp only
    by_cases hlt : pri + nb.2 < prevCost
    · rw [if_pos hlt]
      exact relaxUpdate_inv ctx wpMap allow start cur pri s nb hinv hcur hnb
        hpos (fun c hc => (Option.some.inj (hl ▸ hc)) ▸ hlt)
    · rw [if_neg hlt]
      exact ⟨hinv, hcur⟩
  | none =>
    dsimp only
    exact relaxUpdate_inv ctx wpMap allow start cur pri s nb hinv hcur hnb
      hpos (fun c hc => absurd (hl ▸ hc) (by simp))

/-- The whole neighbor loop preserves the invariant. -/
theorem relaxNeighbors_inv (ctx : RouteCtx) (wpMap : List AreaID)
    (allow : Bool) (start cur : AreaID) (pri : ℚ) (s : DijkstraState)
    (hinv : DijkstraInv ctx wpMap allow start s)
    (hcur : lookupCost s.dist cur = some pri) :
    DijkstraInv ctx wpMap allow start
      (relaxNeighbors cur pri (areaNeighborsWithCosts ctx cur wpMap allow) s) := by
  unfold relaxNeighbors
  refine (foldl_inv
    (fun s' => DijkstraInv ctx wpMap allow start s' ∧
      lookupCost s'.dist cur = some pri)
    (areaNeighborsWithCosts ctx cur wpMap allow) (relaxStep cur pri) ?_ s
    ⟨hinv, hcur⟩).1
  intro s' nb hnbmem hs'
  exact relaxStep_inv ctx wpMap allow start cur pri s' nb hnbmem hs'.1 hs'.2

/-- Dropping the popped item (and keeping the rest of the queue)
preserves the invariant. -/
theorem queueRest_inv (ctx : RouteCtx) (wpMap : List AreaID) (allow : Bool)
    (start : AreaID) (s : DijkstraState) (current : AreaID × ℚ)
    (rest : List (AreaID × ℚ)) (hpop : popMin s.queue = some (current, rest))
    (hinv : DijkstraInv ctx wpMap allow start s) :
    DijkstraInv ctx wpMap allow start { s with queue := rest } := by
  refine ⟨hinv.edges, hinv.coverage, hinv.decrease, ?_, hinv.prevNodup⟩
  intro a p hap
  exact hinv.queueDist a p (popMin_rest_subset s.queue current rest hpop _ hap)

/-- The main loop preserves the invariant for any fuel. -/
theorem dijkstraLoop_inv (ctx : RouteCtx) (wpMap : List AreaID) (allow : Bool)
    (start goal : AreaID) :
    ∀ (fuel : Nat) (s : DijkstraState), DijkstraInv ctx wpMap allow start s →
      DijkstraInv ctx wpMap allow start
        (dijkstraLoop ctx wpMap allow goal fuel s) := by
  intro fuel
  induction fuel with
  | zero => intro s hinv; exact hinv
  | succ fuel ih =>
    intro s hinv
    rw [dijkstraLoop]
    cases hpop : popMin s.queue with
    | none => exact hinv
    | some cr =>
      obtain ⟨current, rest⟩ := cr
      dsimp only
      have hrest := queueRest_inv ctx wpMap allow start s current rest hpop hinv
      by_cases hgoal : current.1 = goal
      · rw [if_pos hgoal]
        exact hrest
      · rw [if_neg hgoal]
        by_cases hskip : (lookupCost s.dist current.1).getD 0 < current.2
        · rw [if_pos hskip]
          exact ih _ hrest
        · rw [if_neg hskip]
          obtain ⟨d, hd, hdp⟩ := hinv.queueDist current.1 current.2
            (popMin_mem s.queue current rest hpop)
          have hcur : lookupCost s.dist current.1 = some current.2 := by
            rw [hd] at hskip ⊢
            have : d = current.2 := le_antisymm hdp (by simpa using hskip)
            rw [this]
          exact ih _ (relaxNeighbors_inv ctx wpMap allow start current.1
            current.2 _ hrest hcur)

/-- The invariant holds at the initial Dijkstra state. -/
theorem dijkstraInit_inv (ctx : RouteCtx) (wpMap : List AreaID) (allow : Bool)
    (start : AreaID) :
    DijkstraInv ctx wpMap allow start
      ⟨[(start, 0)], [], [(start, 0)]⟩ := by
  refine ⟨?_, ?_, ?_, ?_, ?_⟩
  · intro k v hkv
    simp [lookupPrev] at hkv
  · intro k hk hks
    exfalso
    apply hk
    rw [lookupCost_isSome_iff] at hks
    simpa using hks
  · intro k v hkv
    simp [lookupPrev] at hkv
  · intro a p hap
    rw [List.mem_singleton, Prod.mk.injEq] at hap
    refine ⟨0, ?_, le_of_eq hap.2.symm⟩
    rw [hap.1]
    simp [lookupCost]
  · simp

end Route

namespace Route

/-- Walking the `prev` map only ever prepends recorded predecessors, so
the accumulated path is a `prev`-chain. -/
theorem reconstructLoop_chain (prev : List (AreaID × AreaID)) (start : AreaID) :
    ∀ (fuel : Nat) (path : List AreaID),
      path.Chain' (fun a b => lookupPrev prev b = some a) →
      (reconstructLoop prev start fuel path).Chain'
        (fun a b => lookupPrev prev b = some a) := by
  intro fuel
  induction fuel with
  | zero => intro path h; exact h
  | succ fuel ih =>
    intro path h
    cases path with
    | nil => rw [reconstructLoop.eq_def]; simp
    | cons current tl =>
      rw [reconstructLoop.eq_def]
      dsimp only
      by_cases hc : current = start
      · rw [if_pos hc]; exact h
      · rw [if_neg hc]
        cases hp : lookupPrev prev current with
        | none => exact h
        | some p =>
          dsimp only
          exact ih (p :: current :: tl) (List.chain'_cons.mpr ⟨hp, h⟩)

/-- With strictly decreasing distances along `prev` and predecessor
coverage of every settled non-start node, the reconstruction loop always
reaches the start: the nodes consumed so far have pairwise distinct
distances, so at most `prev.length` steps can occur. -/
theorem reconstructLoop_head (prev : List (AreaID × AreaID)) (start : AreaID)
    (dist : List (AreaID × ℚ))
    (hcov : ∀ k, k ≠ start → (lookupCost dist k).isSome = true →
      (lookupPrev prev k).isSome = true)
    (hdec : ∀ k v, lookupPrev prev k = some v →
      ∃ dv dk, lookupCost dist v = some dv ∧ lookupCost dist k = some dk ∧
        dv < dk) :
    ∀ (fuel : Nat) (avoid : List AreaID) (current : AreaID)
      (path : List AreaID) (d : ℚ),
      lookupCost dist current = some d →
      avoid.Nodup →
      (∀ k ∈ avoid, ∃ dk, lookupCost dist k = some dk ∧ d < dk) →
      (∀ k ∈ avoid, k ∈ prev.map Prod.fst) →
      prev.length + 1 ≤ fuel + avoid.length →
      (reconstructLoop prev start fuel (current :: path)).headD 0 = start := by
  intro fuel
  induction fuel with
  | zero =>
    intro avoid current path d _ hnd hgt hsub hlen
    exfalso
    have hle : avoid.length ≤ (prev.map Prod.fst).length :=
      (hnd.subperm hsub).length_le
    rw [List.length_map] at hle
    omega
  | succ fuel ih =>
    intro avoid current path d hd hnd hgt hsub hlen
    rw [reconstructLoop]
    by_cases hc : current = start
    · rw [if_pos hc]
      simp [hc]
    · rw [if_neg hc]
      have hprev : (lookupPrev prev current).isSome = true :=
        hcov current hc (by rw [hd]; rfl)
      cases hp : lookupPrev prev current with
      | none => rw [hp] at hprev; simp at hprev
      | some p =>
        show (reconstructLoop prev start fuel (p :: current :: path)).headD 0 =
          start
        obtain ⟨dv, dk, hdv, hdk, hlt⟩ := hdec current p hp
        have hdkd : dk = d := Option.some.inj (hdk.symm.trans hd)
        have hcur_not : current ∉ avoid := by
          intro hmem
          obtain ⟨dk', hdk', hgt'⟩ := hgt current hmem
          have : dk' = d := Option.some.inj (hdk'.symm.trans hd)
          rw [this] at hgt'
          exact lt_irrefl d hgt'
        refine ih (current :: avoid) p (current :: path) dv hdv
          (List.nodup_cons.mpr ⟨hcur_not, hnd⟩) ?_ ?_ ?_
        · intro k hk
          rcases List.mem_cons.mp hk with hk | hk
          · exact ⟨d, hk ▸ hd, hdkd ▸ hlt⟩
          · obtain ⟨dk', hdk', hgt'⟩ := hgt k hk
            exact ⟨dk', hdk', lt_trans (hdkd ▸ hlt) hgt'⟩
        · intro k hk
          rcases List.mem_cons.mp hk with hk | hk
          · rw [hk, ← lookupPrev_isSome_iff]
            exact hprev
          · exact hsub k hk
        · simp only [List.length_cons]
          omega

/-- `reconstructAreaPath` under the Dijkstra invariants: the result is a
`prev`-chain that starts at `start` (so the prepend branch is not
taken). -/
theorem reconstructAreaPath_spec (prev : List (AreaID × AreaID))
    (dist : List (AreaID × ℚ)) (start goal : AreaID)
    (hcov : ∀ k, k ≠ start → (lookupCost dist k).isSome = true →
      (lookupPrev prev k).isSome = true)
    (hdec : ∀ k v, lookupPrev prev k = some v →
      ∃ dv dk, lookupCost dist v = some dv ∧ lookupCost dist k = some dk ∧
        dv < dk)
    (hgoal : (lookupCost dist goal).isSome = true) :
    (reconstructAreaPath prev start goal).Chain'
      (fun a b => lookupPrev prev b = some a) := by
  obtain ⟨d, hd⟩ := Option.isSome_iff_exists.mp hgoal
  have hhead : (reconstructLoop prev start (prev.length + 1) [goal]).headD 0 =
      start :=
    reconstructLoop_head prev start dist hcov hdec (prev.length + 1) [] goal
      [] d hd List.nodup_nil (by intro k hk; simp at hk)
      (by intro k hk; simp at hk) (by simp)
  unfold reconstructAreaPath
  rw [if_neg (by rw [hhead]; exact fun h => h rfl)]
  exact reconstructLoop_chain prev start (prev.length + 1) [goal]
    (List.chain'_singleton goal)

end Route

/-- A context with no adjacency edges and no discovered waypoints, whose
single act (1) has town waypoint 10. -/
def flatCtx : Route.RouteCtx :=
  { canTeleport := false
    availableWaypoints := []
    areaDataArea := 1
    areaDataAdjacent := []
    areasAdjacent := fun _ => none
    staticAdjacency := fun _ => []
    act := fun _ => 1
    actTownWaypoints := fun a => if a = 1 then some 10 else none }

/-- The route claim as literally stated is false: `flatCtx` has no
adjacency edges and no available waypoints, yet the search returns the
route [1, 10] through the always-permitted town-waypoint edge. -/
theorem weightedAreaPath_claim_counterexample :
    Route.weightedAreaPath flatCtx 1 10 true 10 = some [1, 10] ∧
      ¬ List.Chain' (fun a b =>
        b ∈ Route.collectNeighbors flatCtx a ∨
          (a ∈ Route.availableWaypointMap flatCtx ∧
            b ∈ Route.availableWaypointMap flatCtx)) [1, 10] :=
  ⟨rfl, by rw [List.chain'_pair]; decide⟩

/-- C3 (amended: a hop to the source act's town waypoint is always
permitted, without requiring any discovered waypoint): consecutive areas
of every route returned by the weighted search either share a physical
(static or dynamic) adjacency edge, or — when waypoints are allowed —
form a waypoint hop whose source and destination waypoints are both in
the available set, or a hop to the town waypoint of the source's act. -/
theorem weightedAreaPath_route_edges (ctx : Route.RouteCtx)
    (start goal : Route.AreaID) (allow : Bool) (fuel : Nat)
    (route : List Route.AreaID)
    (h : Route.weightedAreaPath ctx start goal allow fuel = some route) :
    route.Chain' (fun a b =>
      b ∈ Route.collectNeighbors ctx a ∨
        (allow = true ∧
          ((a ∈ Route.availableWaypointMap ctx ∧
              b ∈ Route.availableWaypointMap ctx ∧ b ≠ a) ∨
            (ctx.actTownWaypoints (ctx.act a) = some b ∧ b ≠ a)))) := by
  unfold Route.weightedAreaPath at h
  by_cases hsg : start = goal
  · rw [if_pos hsg] at h
    have hroute := Option.some.inj h
    rw [← hroute]
    simp
  · rw [if_neg hsg] at h
    dsimp only at h
    cases hl : Route.lookupCost
        (Route.dijkstraLoop ctx
          (if allow = true then Route.availableWaypointMap ctx else [])
          allow goal fuel
          ⟨[(start, 0)], [], [(start, 0)]⟩).dist goal with
    | none =>
      rw [hl] at h
      exact absurd h (by simp)
    | some d =>
      rw [hl] at h
      dsimp only at h
      have hroute := Option.some.inj h
      have hinv := Route.dijkstraLoop_inv ctx
        (if allow = true then Route.availableWaypointMap ctx else [])
        allow start goal fuel ⟨[(start, 0)], [], [(start, 0)]⟩
        (Route.dijkstraInit_inv ctx _ allow start)
      have hchain := Route.reconstructAreaPath_spec _ _ start goal
        hinv.coverage hinv.decrease (by rw [hl]; rfl)
      rw [hroute] at hchain
      refine List.Chain'.imp ?_ hchain
      intro a b hab
      have hkey := hinv.edges b a hab
      rw [Route.mem_map_fst_areaNeighborsWithCosts] at hkey
      rcases hkey with hkey | hkey
      · exact Or.inl hkey
      · obtain ⟨hallow, hmem⟩ := hkey
        subst hallow
        rw [if_pos rfl, Route.mem_collectWaypointNeighbors] at hmem
        exact Or.inr ⟨rfl, hmem⟩

/-- The amended route property evaluated on the concrete town-waypoint
route [1, 10] of `flatCtx`. -/
theorem weightedAreaPath_route_edges_witness :
    List.Chain' (fun a b =>
      b ∈ Route.collectNeighbors flatCtx a ∨
        (true = true ∧
          ((a ∈ Route.availableWaypointMap flatCtx ∧
              b ∈ Route.availableWaypointMap flatCtx ∧ b ≠ a) ∨
            (flatCtx.actTownWaypoints (flatCtx.act a) = some b ∧ b ≠ a))))
      [1, 10] :=
  weightedAreaPath_route_edges flatCtx 1 10 true 10 [1, 10] rfl
